import Mathlib

/-!
Verification development for the graph-ig-fb comment-collection pipeline.

The Python sources are embedded shallowly:

* HTTP pagination is modelled by a list of `Fetch` results, one per page in
  cursor order: `ok data hasNext` is a 200 response whose JSON carries a
  `data` array and (when `hasNext`) a `paging.next` cursor, `err` is a
  non-2xx response, and `exn` is a `requests` exception raised by the call.
* The fuzzywuzzy similarity `fuzz.ratio` is an external collaborator and is
  passed in as a `score : String → String → Nat` parameter (0–100 scale);
  the code under verification only compares its results.
* ISO timestamps are abstracted as integer day numbers (days since
  1970-01-01, which was a Thursday); `pd.to_datetime` is the identity under
  this abstraction and `Series.dt.weekday` is `weekday` below (Monday = 0).
* Constant placeholder columns (`live_video_timestamp`, `image_urls`,
  `view_source`) and the wall-clock `timestamp` column are dropped from the
  row model: they are constants independent of the input.
* The platform pipelines seen by the orchestrator (`process_links` in
  `function.py`) are abstracted as oracles returning either rows or a
  failure signal, since the orchestrator treats them as black boxes.

Rate-limit sleeps and logging calls are pure effects with no influence on
the values computed and are omitted.
-/

/-! ## Shared basics -/

/-- ASCII lowercasing of one character, modelling Python `str.lower` on the
alphabets the matching code compares. -/
def charLower (c : Char) : Char :=
  if 65 ≤ c.toNat ∧ c.toNat ≤ 90 then Char.ofNat (c.toNat + 32) else c

/-- `s.lower()`. -/
def lowerStr (s : String) : String :=
  ⟨s.data.map charLower⟩

/-- `s.strip()` (whitespace modelled as the space character). -/
def trimStr (s : String) : String :=
  ⟨((s.data.dropWhile (· = ' ')).reverse.dropWhile (· = ' ')).reverse⟩

/-- Accumulator pass of `s.split(',')`. -/
def splitCommaCore : List Char → List Char → List (List Char)
  | [], cur => [cur.reverse]
  | c :: rest, cur =>
    if c = ',' then cur.reverse :: splitCommaCore rest [] else splitCommaCore rest (c :: cur)

/-- Python `s.split(',')`. -/
def splitComma (s : String) : List String :=
  (splitCommaCore s.data []).map fun l => ⟨l⟩

/-- One comment/reply sequence sub-identifier, the Python `f"{i}.{j}"`. -/
def subId (i j : Nat) : String :=
  toString i ++ "." ++ toString j

/-- A normalized output row (claim-relevant columns only). -/
structure Row where
  id : Nat
  sub_id : String
  date : Int
  week : Option Int
  likes : Nat
  comment : String
  author : String
  client : String
  url : String
  platform : String
deriving Repr, DecidableEq

/-- Result of one paginated HTTP GET, in cursor order. -/
inductive Fetch (α : Type) where
  | ok (data : List α) (hasNext : Bool)
  | err
  | exn
deriving Repr, DecidableEq

/-- The loop guard `limit is None or count < limit`. -/
def capOk (limit : Option Nat) (n : Nat) : Bool :=
  match limit with
  | none => true
  | some l => n < l

/-- The mid-loop check `limit is not None and count >= limit`. -/
def capReached (limit : Option Nat) (n : Nat) : Bool :=
  match limit with
  | none => false
  | some l => l ≤ n

/-- All pages in a cursor chain are 200 responses with nonempty data and a
next cursor (used to describe the pages consumed before an error). -/
def okChainB {α : Type} (ps : List (Fetch α)) : Bool :=
  ps.all fun f =>
    match f with
    | .ok data hasNext => !data.isEmpty && hasNext
    | _ => false

/-- Every `ok` page of the chain carries at most `k` items. -/
def pagesBounded {α : Type} (k : Nat) (ps : List (Fetch α)) : Bool :=
  ps.all fun f =>
    match f with
    | .ok data _ => data.length ≤ k
    | _ => true

/-- Concatenated payloads of the `ok` pages of a chain. -/
def chainData {α : Type} : List (Fetch α) → List α
  | [] => []
  | .ok data _ :: rest => data ++ chainData rest
  | _ :: rest => chainData rest

/-- Pandas `Series.dt.weekday` under the day-number abstraction
(Monday = 0; day 0 = 1970-01-01 was a Thursday). -/
def weekday (d : Int) : Int :=
  (d + 3) % 7

/-- The week column computed by `date - to_timedelta(date.dt.weekday)`. -/
def mondayOf (d : Int) : Int :=
  d - weekday d

/-- The batch week-column recomputation of `function.py` lines 190-192 and
247-249 (and `save_comments` in both fetchers). -/
def addWeek (rows : List Row) : List Row :=
  rows.map fun r => { r with week := some (mondayOf r.date) }

/-! ## Facebook fetcher (`src/facebook/facebook_fetcher.py`) -/

/-- The `from` object of a Facebook comment payload; `name` may be absent. -/
structure FBSender where
  name : Option String
deriving Repr, DecidableEq

/-- A raw top-level Facebook comment payload as returned by the API. -/
structure FBCommentP where
  id : String
  message : Option String
  created_time : Int
  like_count : Nat
  sender : Option FBSender
  comment_count : Nat
deriving Repr, DecidableEq

/-- A raw Facebook reply payload. -/
structure FBReplyP where
  id : String
  message : Option String
  created_time : Int
  like_count : Nat
  sender : Option FBSender
deriving Repr, DecidableEq

/-- The author extraction `comment.get('from', {}).get('name', 'Unknown')`. -/
def fbAuthor (s : Option FBSender) : String :=
  match s with
  | none => "Unknown"
  | some u => u.name.getD "Unknown"

/-- A top-level comment together with the replies fetched for it. -/
structure FBComment where
  base : FBCommentP
  replies : List FBReplyP
deriving Repr, DecidableEq

/-- Top-level pagination loop of `get_facebook_comments` (lines 358-399).
Returns the accumulated comments and whether a requests exception occurred
(which jumps to the handler, skipping the replies pass). -/
def fbTopLoop (limit : Option Nat) : List (Fetch FBCommentP) → List FBCommentP → List FBCommentP × Bool
  | [], acc => (acc, false)
  | f :: rest, acc =>
    if capOk limit acc.length then
      match f with
      | .exn => (acc, true)
      | .err => (acc, false)
      | .ok data hasNext =>
        if data = [] then (acc, false)
        else
          let acc2 := acc ++ data
          if capReached limit acc2.length then (acc2, false)
          else if hasNext then fbTopLoop limit rest acc2
          else (acc2, false)
    else (acc, false)

/-- Reply pagination loop of `get_comment_replies` (lines 455-493): a non-2xx
response breaks the loop keeping the partial accumulation, while a requests
exception lands in the handler which returns the empty list. -/
def gcrGo : List (Fetch FBReplyP) → List FBReplyP → List FBReplyP
  | [], acc => acc
  | f :: rest, acc =>
    match f with
    | .exn => []
    | .err => acc
    | .ok data hasNext =>
      if data = [] then acc
      else
        let acc2 := acc ++ data
        if hasNext then gcrGo rest acc2 else acc2

/-- `get_comment_replies`, over the cursor chain for one comment. -/
def get_comment_replies (pages : List (Fetch FBReplyP)) : List FBReplyP :=
  gcrGo pages []

/-- `get_facebook_comments`: paginate top-level comments, then fetch replies
for every accumulated comment with a nonzero `comment_count` (no cap applies
to the replies pass).  `replyPages` maps a comment id to its reply cursor
chain. -/
def get_facebook_comments (pages : List (Fetch FBCommentP))
    (replyPages : String → List (Fetch FBReplyP)) (limit : Option Nat) : List FBComment :=
  let t := fbTopLoop limit pages []
  if t.2 then t.1.map fun c => ⟨c, []⟩
  else t.1.map fun c =>
    ⟨c, if 0 < c.comment_count then get_comment_replies (replyPages c.id) else []⟩

/-- Reply rows of one comment in `format_comments_for_output`
(the `enumerate(comment['replies'], 1)` loop, lines 534-555). -/
def fbReplyRows (client url : String) (i : Nat) : Nat → List FBReplyP → List Row
  | _, [] => []
  | j, r :: rs =>
    { id := i, sub_id := subId i j, date := r.created_time, week := none,
      likes := r.like_count, comment := r.message.getD "",
      author := fbAuthor r.sender, client := client, url := url,
      platform := "facebook" } :: fbReplyRows client url i (j + 1) rs

/-- Main loop of `format_comments_for_output`
(the `enumerate(comments, 1)` loop, lines 509-556). -/
def fbRows (client url : String) : Nat → List FBComment → List Row
  | _, [] => []
  | i, c :: cs =>
    { id := i, sub_id := "", date := c.base.created_time, week := none,
      likes := c.base.like_count, comment := c.base.message.getD "",
      author := fbAuthor c.base.sender, client := client, url := url,
      platform := "facebook" }
    :: ((if c.replies = [] then [] else fbReplyRows client url i 1 c.replies)
        ++ fbRows client url (i + 1) cs)

/-- `format_comments_for_output(comments, client, url)`. -/
def format_comments_for_output (comments : List FBComment) (client url : String) : List Row :=
  fbRows client url 1 comments

/-! ### Facebook page resolution (`get_page_details_by_name`) -/

/-- One value of `self.page_dict`. -/
structure PageDetails where
  id : String
  access_token : String
deriving Repr, DecidableEq

/-- `[name.strip() for name in page_name.split(',')] if page_name else []`. -/
def splitAliases (pageName : String) : List String :=
  if pageName = "" then [] else (splitComma pageName).map trimStr

/-- The exact-match scan over `self.page_dict.items()` for one alias. -/
def exactFind (pageDict : List (String × PageDetails)) (name : String) :
    Option (String × PageDetails) :=
  pageDict.find? fun pd => decide (lowerStr pd.1 = lowerStr name)

/-- One step of the fuzzy scan: keep the candidate page iff its score
strictly improves the running best. -/
def fuzzStep (score : String → String → Nat) (name : String)
    (bs : Option (String × PageDetails) × Nat) (pd : String × PageDetails) :
    Option (String × PageDetails) × Nat :=
  let s := score (lowerStr name) (lowerStr pd.1)
  if bs.2 < s then (some pd, s) else bs

/-- The fuzzy scan of one alias over the whole page dictionary
(lines 137-141); the running best is carried over from earlier aliases. -/
def fuzzScan (score : String → String → Nat) (name : String)
    (pageDict : List (String × PageDetails))
    (st : Option (String × PageDetails) × Nat) :
    Option (String × PageDetails) × Nat :=
  pageDict.foldl (fuzzStep score name) st

/-- The post-loop acceptance `if best_match and best_score > 30`
(lines 143-149). -/
def finishFuzzy : Option (String × PageDetails) × Nat → Option (String × String)
  | (some pd, s) => if 30 < s then some (pd.2.id, pd.2.access_token) else none
  | (none, _) => none

/-- The alias loop of `get_page_details_by_name` (lines 129-141): exact match
returns immediately; the fuzzy best is pooled across aliases. -/
def resolveNamesGo (score : String → String → Nat)
    (pageDict : List (String × PageDetails)) :
    List String → Option (String × PageDetails) × Nat → Option (String × String)
  | [], st => finishFuzzy st
  | n :: ns, st =>
    match exactFind pageDict n with
    | some pd => some (pd.2.id, pd.2.access_token)
    | none => resolveNamesGo score pageDict ns (fuzzScan score n pageDict st)

/-- Alias resolution starting from the initial `best_match = None`,
`best_score = 0` state. -/
def resolveNames (score : String → String → Nat)
    (pageDict : List (String × PageDetails)) (names : List String) :
    Option (String × String) :=
  resolveNamesGo score pageDict names (none, 0)

/-- `get_page_details_by_name(page_name)` over a given page dictionary and
similarity function. -/
def get_page_details_by_name (score : String → String → Nat)
    (pageDict : List (String × PageDetails)) (pageName : String) :
    Option (String × String) :=
  resolveNames score pageDict (splitAliases pageName)

/-- The maximal fuzzy score over all aliases and all pages. -/
def maxFuzz (score : String → String → Nat)
    (pageDict : List (String × PageDetails)) (names : List String) : Nat :=
  names.foldl (fun m n => pageDict.foldl (fun m2 pd => max m2 (score (lowerStr n) (lowerStr pd.1))) m) 0


/-! ## Instagram fetcher (`src/instagram/instagram_fetcher.py`) -/

/-- A raw Instagram reply payload. -/
structure IGReplyP where
  id : String
  text : Option String
  timestamp : Int
  username : Option String
  like_count : Nat
deriving Repr, DecidableEq

/-- The `replies` object embedded in a comment payload: the first page of
replies plus whether a `paging.next` cursor for more replies is present. -/
structure IGRepliesField where
  data : List IGReplyP
  hasNext : Bool
deriving Repr, DecidableEq

/-- A raw Instagram top-level comment payload; `replies` is absent when the
comment has none. -/
structure IGCommentP where
  id : String
  text : Option String
  timestamp : Int
  username : Option String
  like_count : Nat
  replies : Option IGRepliesField
deriving Repr, DecidableEq

/-- Top-level pagination loop of `get_instagram_comments` (lines 214-248).
`requests.get` is not wrapped in a handler here, so a requests exception
propagates out of the whole call (`none`). -/
def igTopLoop (limit : Option Nat) : List (Fetch IGCommentP) → List IGCommentP → Option (List IGCommentP)
  | [], acc => some acc
  | f :: rest, acc =>
    if capOk limit acc.length then
      match f with
      | .exn => none
      | .err => some acc
      | .ok data hasNext =>
        if data = [] then some acc
        else
          let acc2 := acc ++ data
          if hasNext then igTopLoop limit rest acc2 else some acc2
    else some acc

/-- Per-comment reply pagination loop (lines 279-312).  The guard compares
`total_comments + total_replies` with the cap; `total_replies` is threaded
across comments.  An exception again propagates (`none`). -/
def igReplyLoop (limit : Option Nat) (topCount : Nat) :
    List (Fetch IGReplyP) → List IGReplyP → Nat → Option (List IGReplyP × Nat)
  | [], acc, tr => some (acc, tr)
  | f :: rest, acc, tr =>
    if capOk limit (topCount + tr) then
      match f with
      | .exn => none
      | .err => some (acc, tr)
      | .ok data hasNext =>
        if data = [] then some (acc, tr)
        else
          let acc2 := acc ++ data
          let tr2 := tr + data.length
          if hasNext then igReplyLoop limit topCount rest acc2 tr2 else some (acc2, tr2)
    else some (acc, tr)

/-- The replies pass of `get_instagram_comments` (lines 253-323): comments
with an embedded reply page and a further cursor get the extra pages fetched;
embedded replies are always kept.  Returns each comment paired with its
effective reply list (`none` when the payload had no `replies` key). -/
def igRepliesPhase (limit : Option Nat) (topCount : Nat)
    (orc : String → List (Fetch IGReplyP)) :
    List IGCommentP → Nat → Option (List (IGCommentP × Option (List IGReplyP)))
  | [], _ => some []
  | c :: cs, tr =>
    match c.replies with
    | none => (igRepliesPhase limit topCount orc cs tr).map fun rest => (c, none) :: rest
    | some rf =>
      if rf.hasNext then
        match igReplyLoop limit topCount (orc c.id) rf.data tr with
        | none => none
        | some (allR, tr2) =>
          (igRepliesPhase limit topCount orc cs tr2).map fun rest => (c, some allR) :: rest
      else
        (igRepliesPhase limit topCount orc cs (tr + rf.data.length)).map fun rest =>
          (c, some rf.data) :: rest

/-- Reply rows of one comment in the normalization loop of
`get_instagram_comments` (lines 356-377): missing `username` and missing
`text` both default to the empty string. -/
def igReplyRows (i : Nat) : Nat → List IGReplyP → List Row
  | _, [] => []
  | j, r :: rs =>
    { id := i, sub_id := subId i j, date := r.timestamp, week := none,
      likes := r.like_count, comment := r.text.getD "",
      author := r.username.getD "", client := "", url := "",
      platform := "instagram" } :: igReplyRows i (j + 1) rs

/-- Main normalization loop of `get_instagram_comments` (lines 331-377). -/
def igRows : Nat → List (IGCommentP × Option (List IGReplyP)) → List Row
  | _, [] => []
  | i, c :: cs =>
    { id := i, sub_id := "", date := c.1.timestamp, week := none,
      likes := c.1.like_count, comment := c.1.text.getD "",
      author := c.1.username.getD "", client := "", url := "",
      platform := "instagram" }
    :: ((match c.2 with
         | some rs => igReplyRows i 1 rs
         | none => []) ++ igRows (i + 1) cs)

/-- The normalization step of `get_instagram_comments`. -/
def igNormalize (cs : List (IGCommentP × Option (List IGReplyP))) : List Row :=
  igRows 1 cs

/-- `get_instagram_comments(media_id, access_token, limit)`: top-level
pagination, replies pass, then normalization; `none` models an uncaught
requests exception escaping the call. -/
def get_instagram_comments (pages : List (Fetch IGCommentP))
    (orc : String → List (Fetch IGReplyP)) (limit : Option Nat) : Option (List Row) :=
  match igTopLoop limit pages [] with
  | none => none
  | some tops =>
    match igRepliesPhase limit tops.length orc tops 0 with
    | none => none
    | some cs => some (igNormalize cs)

/-! ### Instagram account resolution (`get_instagram_business_id`) -/

/-- One page object from `me/accounts` as inspected by
`get_instagram_business_id`. -/
structure IGPage where
  name : String
  id : String
deriving Repr, DecidableEq

/-- Python truthiness of an optional string (`None` and `''` are falsy). -/
def truthyS : Option String → Bool
  | some s => if s = "" then false else true
  | none => false

/-- The single scan of `get_instagram_business_id` (lines 55-69): break on a
case-insensitive exact name match, otherwise track the best fuzzy match with
strict improvement.  Returns the exact-match page id (if any) and the final
best state. -/
def igSelectLoop (score : String → String → Nat) (pageName : String) :
    List IGPage → Option IGPage → Nat → Option String × Option IGPage × Nat
  | [], best, bs => (none, best, bs)
  | p :: ps, best, bs =>
    if lowerStr p.name = lowerStr pageName then (some p.id, best, bs)
    else
      let s := score (lowerStr pageName) (lowerStr p.name)
      if bs < s then igSelectLoop score pageName ps (some p) s
      else igSelectLoop score pageName ps best bs

/-- Page selection of `get_instagram_business_id` (lines 50-78): fall back to
the best fuzzy match only when no exact match was found and the best score
exceeds 30, then fail on a falsy page id. -/
def igSelectPage (score : String → String → Nat) (pageName : String)
    (pages : List IGPage) : Option String :=
  let r := igSelectLoop score pageName pages none 0
  let pid := if !truthyS r.1 && decide (30 < r.2.2) then r.2.1.map (fun p => p.id) else r.1
  if truthyS pid then pid else none

/-- `get_instagram_business_id`: select the page, then resolve its connected
Instagram business account via the Step-2 lookup call (an oracle here). -/
def get_instagram_business_id (score : String → String → Nat)
    (pages : List IGPage) (igLookup : String → Option String)
    (pageName : String) : Option String :=
  match igSelectPage score pageName pages with
  | none => none
  | some pid => igLookup pid

/-- The maximal fuzzy score of `pageName` against all pages. -/
def igMaxFuzz (score : String → String → Nat) (pageName : String)
    (pages : List IGPage) : Nat :=
  pages.foldl (fun m p => max m (score (lowerStr pageName) (lowerStr p.name))) 0

/-- The alias loop of the Instagram `process_link` (lines 437-447): skip
empty names, stop at the first name whose resolution is truthy.  `resolve`
is `get_instagram_business_id` partially applied; `none` covers both `None`
and a falsy id. -/
def igAliasLoop (resolve : String → Option String) : List String → Option String
  | [] => none
  | n :: ns =>
    if n = "" then igAliasLoop resolve ns
    else
      match resolve n with
      | some i => some i
      | none => igAliasLoop resolve ns

/-! ## Orchestrator (`src/function.py`, `process_links`) -/

/-- Routing platforms. -/
inductive Plat where
  | ig
  | fb
deriving Repr, DecidableEq

/-- Case-insensitive substring test, modelling both
`Series.str.contains(needle, case=False)` and `needle in link.lower()`
(the needles used are lowercase literals). -/
def hasSub (needle s : String) : Bool :=
  ((lowerStr s).data.tails).any fun t => needle.data.isPrefixOf t

/-- Outcome of one `process_link` call as the orchestrator sees it.  For the
Instagram fetcher `failSig` is an escaped exception (the orchestrator then
records the link); for the Facebook fetcher `failSig` is an internal failure
(the fetcher records the link itself and returns `[]`). -/
inductive Res where
  | rows (rs : List Row)
  | failSig
deriving Repr, DecidableEq

/-- The two platform pipelines, first pass and retry pass, as oracles. -/
structure Pipes where
  igFirst : String → Res
  fbFirst : String → Res
  igRetry : String → Res
  fbRetry : String → Res

/-- First-pass Instagram loop (lines 88-114): accumulate rows, record links
whose processing raised, log every pipeline invocation. -/
def igPass (p : Pipes) : List String → List Row × List String × List (Plat × String)
  | [] => ([], [], [])
  | l :: ls =>
    let rest := igPass p ls
    match p.igFirst l with
    | .rows rs => (rs ++ rest.1, rest.2.1, (Plat.ig, l) :: rest.2.2)
    | .failSig => (rest.1, l :: rest.2.1, (Plat.ig, l) :: rest.2.2)

/-- First-pass Facebook loop (lines 118-144). -/
def fbPass (p : Pipes) : List String → List Row × List String × List (Plat × String)
  | [] => ([], [], [])
  | l :: ls =>
    let rest := fbPass p ls
    match p.fbFirst l with
    | .rows rs => (rs ++ rest.1, rest.2.1, (Plat.fb, l) :: rest.2.2)
    | .failSig => (rest.1, l :: rest.2.1, (Plat.fb, l) :: rest.2.2)

/-- The retry loop over the snapshot of failed links (lines 218-242):
dispatch by substring with instagram checked first, append the returned rows
when truthy, swallow retry errors.  Returns the appended rows and the call
log. -/
def retry_pass (p : Pipes) : List String → List Row × List (Plat × String)
  | [] => ([], [])
  | l :: ls =>
    let rest := retry_pass p ls
    if hasSub "instagram" l then
      match p.igRetry l with
      | .rows rs => ((if rs = [] then [] else rs) ++ rest.1, (Plat.ig, l) :: rest.2)
      | .failSig => (rest.1, (Plat.ig, l) :: rest.2)
    else if hasSub "facebook" l then
      match p.fbRetry l with
      | .rows rs => ((if rs = [] then [] else rs) ++ rest.1, (Plat.fb, l) :: rest.2)
      | .failSig => (rest.1, (Plat.fb, l) :: rest.2)
    else (rest.1, rest.2)

/-- Rows contributed by the retry pass, by failed-link record in order. -/
def retryGains (p : Pipes) : List String → List Row
  | [] => []
  | l :: ls =>
    (if hasSub "instagram" l then
       match p.igRetry l with
       | .rows rs => rs
       | .failSig => []
     else if hasSub "facebook" l then
       match p.fbRetry l with
       | .rows rs => rs
       | .failSig => []
     else []) ++ retryGains p ls

/-- The retry dispatch decision for one failed link. -/
def dispatchPlat (l : String) : Plat :=
  if hasSub "instagram" l then Plat.ig else Plat.fb

/-- Observable result of one `process_links` run: the merged dataset
(`none` when the run returned `(None, None)`), the snapshot of recorded
failed links, and the pipeline invocations of the first and the retry pass. -/
structure ProcResult where
  rows : Option (List Row)
  failed : List String
  firstCalls : List (Plat × String)
  retryCalls : List (Plat × String)
deriving Repr, DecidableEq

/-- `process_links(df, ...)` over the list of link URLs: route by substring,
run both first passes, return early when no rows were collected (lines
176-178, skipping the retry pass), otherwise retry the failed snapshot and
recompute the week column over the merged rows (lines 247-249). -/
def process_links (p : Pipes) (links : List String) : ProcResult :=
  let igL := links.filter fun l => hasSub "instagram" l
  let fbL := links.filter fun l => hasSub "facebook" l
  let ig := igPass p igL
  let fb := fbPass p fbL
  let firstRows := ig.1 ++ fb.1
  let failed := ig.2.1 ++ fb.2.1
  if firstRows = [] then
    { rows := none, failed := failed, firstCalls := ig.2.2 ++ fb.2.2, retryCalls := [] }
  else
    let rp := retry_pass p failed
    { rows := some (addWeek (firstRows ++ rp.1)), failed := failed,
      firstCalls := ig.2.2 ++ fb.2.2, retryCalls := rp.2 }

/-! ## Claim C1: the overall item cap -/

/-- Total items (top-level comments plus replies) held by a Facebook
retrieval result. -/
def fbItemCount (cs : List FBComment) : Nat :=
  cs.foldl (fun n c => n + 1 + c.replies.length) 0

lemma fbTopLoop_cap_zero (pages : List (Fetch FBCommentP)) :
    fbTopLoop (some 0) pages [] = ([], false) := by
  cases pages <;> simp [fbTopLoop, capOk]

lemma igTopLoop_cap_zero (pages : List (Fetch IGCommentP)) :
    igTopLoop (some 0) pages [] = some [] := by
  cases pages <;> simp [igTopLoop, capOk]

lemma fbTopLoop_length_le (k N : Nat) :
    ∀ (pages : List (Fetch FBCommentP)), pagesBounded k pages = true →
    ∀ acc, ((fbTopLoop (some N) pages acc).1).length ≤ max acc.length (N - 1 + k)
  | [], _, acc => by simp [fbTopLoop]
  | f :: rest, h, acc => by
    rw [pagesBounded, List.all_cons, Bool.and_eq_true] at h
    obtain ⟨hf, hrest⟩ := h
    simp only [fbTopLoop]
    by_cases hg : capOk (some N) acc.length = true
    · rw [if_pos hg]
      have hacc : acc.length < N := by simpa [capOk] using hg
      cases f with
      | exn => simp
      | err => simp
      | ok data hasNext =>
        have hdk : data.length ≤ k := by simpa using hf
        dsimp only
        by_cases hd : data = []
        · simp [hd]
        · rw [if_neg hd]
          by_cases hr : capReached (some N) (acc ++ data).length = true
          · rw [if_pos hr]
            have : (acc ++ data).length ≤ N - 1 + k := by
              simp only [List.length_append]; omega
            exact le_max_of_le_right this
          · rw [if_neg hr]
            have hr2 : (acc ++ data).length ≤ N - 1 + k := by
              simp only [List.length_append]; omega
            cases hasNext with
            | true =>
              rw [if_pos rfl]
              have ih := fbTopLoop_length_le k N rest hrest (acc ++ data)
              rw [max_eq_right hr2] at ih
              exact le_max_of_le_right ih
            | false =>
              rw [if_neg Bool.false_ne_true]
              exact le_max_of_le_right hr2
    · rw [if_neg hg]
      simp

lemma igTopLoop_length_le (k N : Nat) :
    ∀ (pages : List (Fetch IGCommentP)), pagesBounded k pages = true →
    ∀ acc out, igTopLoop (some N) pages acc = some out →
    out.length ≤ max acc.length (N - 1 + k)
  | [], _, acc, out => by
    intro h
    simp only [igTopLoop, Option.some.injEq] at h
    subst h; simp
  | f :: rest, h, acc, out => by
    rw [pagesBounded, List.all_cons, Bool.and_eq_true] at h
    obtain ⟨hf, hrest⟩ := h
    intro hrun
    simp only [igTopLoop] at hrun
    by_cases hg : capOk (some N) acc.length = true
    · rw [if_pos hg] at hrun
      have hacc : acc.length < N := by simpa [capOk] using hg
      cases f with
      | exn => simp at hrun
      | err =>
        simp at hrun; subst hrun; simp
      | ok data hasNext =>
        have hdk : data.length ≤ k := by simpa using hf
        dsimp only at hrun
        by_cases hd : data = []
        · simp [hd] at hrun; subst hrun; simp
        · rw [if_neg hd] at hrun
          have hr2 : (acc ++ data).length ≤ N - 1 + k := by
            simp only [List.length_append]; omega
          cases hasNext with
          | true =>
            rw [if_pos rfl] at hrun
            have ih := igTopLoop_length_le k N rest hrest (acc ++ data) out hrun
            rw [max_eq_right hr2] at ih
            exact le_max_of_le_right ih
          | false =>
            rw [if_neg Bool.false_ne_true] at hrun
            simp at hrun; subst hrun
            exact le_max_of_le_right hr2
    · rw [if_neg hg] at hrun
      simp at hrun; subst hrun; simp

/-- Claim C1 (amended).  The claimed hard cap does not hold: the pagination
loops only stop requesting FURTHER pages once the accumulated count reaches
the cap, appending each page whole, and the Facebook replies pass is not
bounded by the cap at all.  What does hold: a cap of 0 yields zero items on
both platforms, and when every page carries at most k items the number of
top-level comments collected is at most N - 1 + k. -/
theorem claim_C1_amended (fbPages : List (Fetch FBCommentP))
    (orc : String → List (Fetch FBReplyP)) (igPages : List (Fetch IGCommentP))
    (orc2 : String → List (Fetch IGReplyP)) (k N : Nat)
    (hfb : pagesBounded k fbPages = true) (hig : pagesBounded k igPages = true) :
    get_facebook_comments fbPages orc (some 0) = []
    ∧ get_instagram_comments igPages orc2 (some 0) = some []
    ∧ (get_facebook_comments fbPages orc (some N)).length ≤ N - 1 + k
    ∧ (∀ tops, igTopLoop (some N) igPages [] = some tops → tops.length ≤ N - 1 + k) := by
  refine ⟨?_, ?_, ?_, ?_⟩
  · simp [get_facebook_comments, fbTopLoop_cap_zero]
  · simp [get_instagram_comments, igTopLoop_cap_zero, igRepliesPhase, igNormalize, igRows]
  · have h := fbTopLoop_length_le k N fbPages hfb []
    simp only [List.length_nil, Nat.max_eq_right (Nat.zero_le _)] at h
    have : (get_facebook_comments fbPages orc (some N)).length
        = ((fbTopLoop (some N) fbPages []).1).length := by
      rw [get_facebook_comments]
      by_cases hex : (fbTopLoop (some N) fbPages []).2 = true
      · simp [hex]
      · simp [hex]
    omega
  · intro tops htops
    have h := igTopLoop_length_le k N igPages hig [] tops htops
    simpa using h

def fbCexA : FBCommentP := ⟨"c1", none, 0, 0, none, 0⟩

def fbCexB : FBCommentP := ⟨"c2", none, 0, 0, none, 0⟩

def fbCexC : FBCommentP := ⟨"c3", none, 0, 0, none, 1⟩

def fbCexR : FBReplyP := ⟨"r1", none, 0, 0, none⟩

/-- Claim C1 witness: a concrete two-page Facebook chain and a concrete
Instagram top-level result at cap 2 and page size 1. -/
theorem claim_C1_witness :
    pagesBounded 1 [Fetch.ok [fbCexA] true, Fetch.ok [fbCexB] false] = true
    ∧ get_facebook_comments [Fetch.ok [fbCexA] true, Fetch.ok [fbCexB] false] (fun _ => []) (some 0) = []
    ∧ (get_facebook_comments [Fetch.ok [fbCexA] true, Fetch.ok [fbCexB] false] (fun _ => []) (some 2)).length ≤ 2 - 1 + 1 := by
  have h := claim_C1_amended [Fetch.ok [fbCexA] true, Fetch.ok [fbCexB] false]
    (fun _ => []) ([] : List (Fetch IGCommentP)) (fun _ => []) 1 2
    (by decide) (by decide)
  exact ⟨by decide, h.1, h.2.2.1⟩

/-- Claim C1 counterexample: with cap N = 1 a single page of two comments
already yields two items, and with cap N = 1 replies are still fetched for
the one retained comment. -/
theorem claim_C1_counterexample :
    ¬ (fbItemCount (get_facebook_comments [Fetch.ok [fbCexA, fbCexB] false]
        (fun _ => []) (some 1)) ≤ 1)
    ∧ (get_facebook_comments [Fetch.ok [fbCexC] false]
        (fun _ => [Fetch.ok [fbCexR] false]) (some 1)).map (fun c => c.replies)
      ≠ [[]] := by
  constructor
  · decide
  · decide

/-! ## Claim C2: alias ordering and short-circuiting -/

/-- The fuzzy scans of a whole alias list, pooled in one running best state
(what the Facebook resolver actually computes when no exact match fires). -/
def fuzzScanAll (score : String → String → Nat)
    (pageDict : List (String × PageDetails)) :
    List String → Option (String × PageDetails) × Nat → Option (String × PageDetails) × Nat
  | [], st => st
  | n :: ns, st => fuzzScanAll score pageDict ns (fuzzScan score n pageDict st)

lemma igAliasLoop_append (resolve : String → Option String) :
    ∀ xs : List String, (∀ x ∈ xs, x = "" ∨ resolve x = none) →
    ∀ ys, igAliasLoop resolve (xs ++ ys) = igAliasLoop resolve ys
  | [], _, ys => rfl
  | x :: xs, h, ys => by
    have hx := h x (List.mem_cons_self x xs)
    have hxs : ∀ y ∈ xs, y = "" ∨ resolve y = none := fun y hy =>
      h y (List.mem_cons_of_mem x hy)
    simp only [List.cons_append, igAliasLoop]
    rcases hx with hx | hx
    · rw [if_pos hx]
      exact igAliasLoop_append resolve xs hxs ys
    · by_cases hx0 : x = ""
      · rw [if_pos hx0]
        exact igAliasLoop_append resolve xs hxs ys
      · rw [if_neg hx0, hx]
        exact igAliasLoop_append resolve xs hxs ys

lemma resolveNamesGo_exact (score : String → String → Nat)
    (pageDict : List (String × PageDetails)) (c : String)
    (pd : String × PageDetails) (hc : exactFind pageDict c = some pd) :
    ∀ xs : List String, (∀ x ∈ xs, exactFind pageDict x = none) →
    ∀ ys st, resolveNamesGo score pageDict (xs ++ c :: ys) st
      = some (pd.2.id, pd.2.access_token)
  | [], _, ys, st => by
    simp only [List.nil_append, resolveNamesGo, hc]
  | x :: xs, h, ys, st => by
    have hx := h x (List.mem_cons_self x xs)
    have hxs : ∀ y ∈ xs, exactFind pageDict y = none := fun y hy =>
      h y (List.mem_cons_of_mem x hy)
    simp only [List.cons_append, resolveNamesGo, hx]
    exact resolveNamesGo_exact score pageDict c pd hc xs hxs ys _

lemma resolveNamesGo_noExact (score : String → String → Nat)
    (pageDict : List (String × PageDetails)) :
    ∀ ns : List String, (∀ n ∈ ns, exactFind pageDict n = none) →
    ∀ st, resolveNamesGo score pageDict ns st
      = finishFuzzy (fuzzScanAll score pageDict ns st)
  | [], _, st => rfl
  | n :: ns, h, st => by
    have hn := h n (List.mem_cons_self n ns)
    have hns : ∀ m ∈ ns, exactFind pageDict m = none := fun m hm =>
      h m (List.mem_cons_of_mem n hm)
    simp only [resolveNamesGo, hn, fuzzScanAll]
    exact resolveNamesGo_noExact score pageDict ns hns _

/-- Claim C2 (amended).  The Instagram resolver does try aliases in order
and short-circuits on the first alias that resolves (earlier failing or
empty aliases are skipped independently).  The Facebook resolver
short-circuits only on EXACT matches: when no earlier alias has an exact
match, an exact match of the current alias wins immediately; but fuzzy
scores are pooled across all aliases into one running best thresholded once
after the loop, so an above-threshold fuzzy success of an earlier alias does
not stop later aliases from being consulted and overriding it. -/
theorem claim_C2_amended (resolve : String → Option String) (xs ys : List String)
    (n i : String) (score : String → String → Nat)
    (pageDict : List (String × PageDetails)) (xs2 ys2 : List String)
    (c : String) (pd : String × PageDetails)
    (h1 : ∀ x ∈ xs, x = "" ∨ resolve x = none) (h2 : n ≠ "")
    (h3 : resolve n = some i) :
    igAliasLoop resolve (xs ++ n :: ys) = some i
    ∧ ((∀ x ∈ xs2, exactFind pageDict x = none) → exactFind pageDict c = some pd →
        resolveNames score pageDict (xs2 ++ c :: ys2) = some (pd.2.id, pd.2.access_token))
    ∧ ((∀ x ∈ xs2 ++ c :: ys2, exactFind pageDict x = none) →
        resolveNames score pageDict (xs2 ++ c :: ys2)
          = finishFuzzy (fuzzScanAll score pageDict (xs2 ++ c :: ys2) (none, 0))) := by
  refine ⟨?_, ?_, ?_⟩
  · rw [igAliasLoop_append resolve xs h1]
    simp only [igAliasLoop]
    rw [if_neg h2, h3]
  · intro hxs hc
    exact resolveNamesGo_exact score pageDict c pd hc xs2 hxs ys2 _
  · intro hall
    exact resolveNamesGo_noExact score pageDict _ hall _

/-- Claim C2 witness: a concrete alias list where the first nonempty alias
resolves on Instagram, and a concrete Facebook dictionary where the second
alias has an exact match. -/
theorem claim_C2_witness :
    igAliasLoop (fun s => if s = "a" then some "ID" else none) ([""] ++ "a" :: ["b"]) = some "ID"
    ∧ resolveNames (fun _ _ => 0) [("P", ⟨"1", "t"⟩)] (["q"] ++ "p" :: []) = some ("1", "t") := by
  have h := claim_C2_amended (fun s => if s = "a" then some "ID" else none)
    [""] ["b"] "a" "ID" (fun _ _ => 0) [("P", ⟨"1", "t"⟩)] ["q"] [] "p"
    ("P", ⟨"1", "t"⟩) (by decide) (by decide) (by decide)
  exact ⟨h.1, h.2.1 (by decide) (by decide)⟩

/-- Fuzzy scores used in the claim C2 counterexample. -/
def c2score (a b : String) : Nat :=
  if a = "x" ∧ b = "p" then 50 else if a = "y" ∧ b = "q" then 90 else 0

/-- Page dictionary used in the claim C2 counterexample. -/
def c2dict : List (String × PageDetails) :=
  [("p", ⟨"idp", "tp"⟩), ("q", ⟨"idq", "tq"⟩)]

/-- Claim C2 counterexample: alias "x" succeeds on its own by fuzzy match
(score 50 > 30), yet on the list "x,y" the later alias "y" is still
consulted and its higher-scoring page wins — resolution does not
short-circuit on the first alias that succeeds. -/
theorem claim_C2_counterexample :
    get_page_details_by_name c2score c2dict "x" = some ("idp", "tp")
    ∧ get_page_details_by_name c2score c2dict "x,y" = some ("idq", "tq")
    ∧ some (("idq", "tq") : String × String) ≠ some ("idp", "tp") := by
  refine ⟨by decide, by decide, by decide⟩

/-! ## Claim C3: defaults for missing author and text -/

/-- Claim C3 (amended).  During normalization a Facebook comment or reply
with a missing author gets the placeholder "Unknown", but an Instagram
comment or reply with a missing username gets the empty string; missing
message text becomes the empty string on both platforms. -/
theorem claim_C3_amended (cl u : String) (c : FBComment) (cs : List FBComment)
    (r : FBReplyP) (rs : List FBReplyP)
    (ic : IGCommentP) (ics : List (IGCommentP × Option (List IGReplyP)))
    (ir : IGReplyP) (irs : List IGReplyP)
    (h1 : c.base.sender = none) (h2 : c.base.message = none)
    (h3 : c.replies = r :: rs) (h4 : r.sender = none) (h5 : r.message = none)
    (h6 : ic.username = none) (h7 : ic.text = none)
    (h8 : ir.username = none) (h9 : ir.text = none) :
    ((format_comments_for_output (c :: cs) cl u).head?.map fun w => (w.author, w.comment))
      = some ("Unknown", "")
    ∧ ((format_comments_for_output (c :: cs) cl u).get? 1).map (fun w => (w.author, w.comment))
      = some ("Unknown", "")
    ∧ ((igNormalize ((ic, some (ir :: irs)) :: ics)).head?.map fun w => (w.author, w.comment))
      = some ("", "")
    ∧ ((igNormalize ((ic, some (ir :: irs)) :: ics)).get? 1).map (fun w => (w.author, w.comment))
      = some ("", "") := by
  refine ⟨?_, ?_, ?_, ?_⟩
  · simp [format_comments_for_output, fbRows, h1, h2, fbAuthor]
  · simp [format_comments_for_output, fbRows, fbReplyRows, h3, h4, h5, fbAuthor]
  · simp [igNormalize, igRows, h6, h7]
  · simp [igNormalize, igRows, igReplyRows, h8, h9]

/-- Claim C3 witness: concrete payloads with all optional fields absent. -/
theorem claim_C3_witness :
    ((format_comments_for_output [⟨⟨"c", none, 0, 0, none, 1⟩, [⟨"r", none, 0, 0, none⟩]⟩] "cl" "u").head?.map
        fun w => (w.author, w.comment)) = some ("Unknown", "")
    ∧ ((igNormalize [(⟨"i", none, 0, none, 0, none⟩, some [⟨"j", none, 0, none, 0⟩])]).head?.map
        fun w => (w.author, w.comment)) = some ("", "") := by
  have h := claim_C3_amended "cl" "u" ⟨⟨"c", none, 0, 0, none, 1⟩, [⟨"r", none, 0, 0, none⟩]⟩ []
    ⟨"r", none, 0, 0, none⟩ [] ⟨"i", none, 0, none, 0, none⟩ [] ⟨"j", none, 0, none, 0⟩ []
    rfl rfl rfl rfl rfl rfl rfl rfl rfl
  exact ⟨h.1, h.2.2.1⟩

/-- Instagram comment payload with no username used in the claim C3
counterexample. -/
def c3ic : IGCommentP := ⟨"i1", none, 0, none, 0, none⟩

/-- Claim C3 counterexample: an Instagram comment whose payload is missing
the author name is normalized with the empty-string author, not with the
placeholder "Unknown". -/
theorem claim_C3_counterexample :
    (igNormalize [(c3ic, none)]).map (fun w => w.author) = [""]
    ∧ ("" : String) ≠ "Unknown" := by
  refine ⟨by decide, by decide⟩

/-! ## Claim C4: behaviour on mid-pagination failures -/

lemma okChainB_cons {α : Type} {f : Fetch α} {ps : List (Fetch α)}
    (h : okChainB (f :: ps) = true) :
    (∃ data, f = .ok data true ∧ data ≠ []) ∧ okChainB ps = true := by
  rw [okChainB, List.all_cons, Bool.and_eq_true] at h
  obtain ⟨hf, hps⟩ := h
  refine ⟨?_, hps⟩
  cases f with
  | err => simp at hf
  | exn => simp at hf
  | ok data hasNext =>
    rw [Bool.and_eq_true] at hf
    obtain ⟨hd, hn⟩ := hf
    refine ⟨data, ?_, ?_⟩
    · cases hasNext with
      | true => rfl
      | false => simp at hn
    · intro hc; subst hc; simp at hd

lemma gcrGo_err : ∀ (ps : List (Fetch FBReplyP)), okChainB ps = true →
    ∀ (rest : List (Fetch FBReplyP)) acc,
    gcrGo (ps ++ .err :: rest) acc = acc ++ chainData ps
  | [], _, rest, acc => by simp [gcrGo, chainData]
  | f :: ps, h, rest, acc => by
    obtain ⟨⟨data, hf, hd⟩, hps⟩ := okChainB_cons h
    subst hf
    dsimp only [List.cons_append, gcrGo, chainData]
    rw [if_neg hd, gcrGo_err ps hps rest (acc ++ data)]
    simp [List.append_assoc]

lemma gcrGo_exn : ∀ (ps : List (Fetch FBReplyP)), okChainB ps = true →
    ∀ (rest : List (Fetch FBReplyP)) acc, gcrGo (ps ++ .exn :: rest) acc = []
  | [], _, rest, acc => by simp [gcrGo]
  | f :: ps, h, rest, acc => by
    obtain ⟨⟨data, hf, hd⟩, hps⟩ := okChainB_cons h
    subst hf
    dsimp only [List.cons_append, gcrGo]
    rw [if_neg hd]
    exact gcrGo_exn ps hps rest (acc ++ data)

lemma fbTopLoop_err : ∀ (ps : List (Fetch FBCommentP)), okChainB ps = true →
    ∀ (rest : List (Fetch FBCommentP)) acc,
    fbTopLoop none (ps ++ .err :: rest) acc = (acc ++ chainData ps, false)
  | [], _, rest, acc => by simp [fbTopLoop, capOk, chainData]
  | f :: ps, h, rest, acc => by
    obtain ⟨⟨data, hf, hd⟩, hps⟩ := okChainB_cons h
    subst hf
    dsimp only [List.cons_append, fbTopLoop, capOk, capReached, chainData]
    rw [if_neg hd, fbTopLoop_err ps hps rest (acc ++ data)]
    simp [List.append_assoc]

lemma fbTopLoop_exn : ∀ (ps : List (Fetch FBCommentP)), okChainB ps = true →
    ∀ (rest : List (Fetch FBCommentP)) acc,
    fbTopLoop none (ps ++ .exn :: rest) acc = (acc ++ chainData ps, true)
  | [], _, rest, acc => by simp [fbTopLoop, capOk, chainData]
  | f :: ps, h, rest, acc => by
    obtain ⟨⟨data, hf, hd⟩, hps⟩ := okChainB_cons h
    subst hf
    dsimp only [List.cons_append, fbTopLoop, capOk, capReached, chainData]
    rw [if_neg hd, fbTopLoop_exn ps hps rest (acc ++ data)]
    simp [List.append_assoc]

lemma igTopLoop_err : ∀ (ps : List (Fetch IGCommentP)), okChainB ps = true →
    ∀ (rest : List (Fetch IGCommentP)) acc,
    igTopLoop none (ps ++ .err :: rest) acc = some (acc ++ chainData ps)
  | [], _, rest, acc => by simp [igTopLoop, capOk, chainData]
  | f :: ps, h, rest, acc => by
    obtain ⟨⟨data, hf, hd⟩, hps⟩ := okChainB_cons h
    subst hf
    dsimp only [List.cons_append, igTopLoop, capOk, chainData]
    rw [if_neg hd, igTopLoop_err ps hps rest (acc ++ data)]
    simp [List.append_assoc]

lemma igTopLoop_exn : ∀ (ps : List (Fetch IGCommentP)), okChainB ps = true →
    ∀ (rest : List (Fetch IGCommentP)) acc,
    igTopLoop none (ps ++ .exn :: rest) acc = none
  | [], _, rest, acc => by simp [igTopLoop, capOk]
  | f :: ps, h, rest, acc => by
    obtain ⟨⟨data, hf, hd⟩, hps⟩ := okChainB_cons h
    subst hf
    dsimp only [List.cons_append, igTopLoop, capOk]
    rw [if_neg hd]
    exact igTopLoop_exn ps hps rest (acc ++ data)

/-- Claim C4 (amended).  On a non-2xx response the partial accumulation is
indeed preserved on every pagination loop (Facebook top-level, Facebook
replies, Instagram top-level).  On a requests exception, however, only the
Facebook TOP-LEVEL loop preserves its partial accumulation (returning the
raw comments without a replies pass): the Facebook reply loop's handler
discards the replies accumulated for that comment and returns the empty
list, and the Instagram fetcher has no handler at all, so the exception
propagates and no partial result is returned. -/
theorem claim_C4_amended (pr rr : List (Fetch FBReplyP))
    (pf rf : List (Fetch FBCommentP)) (pi ri : List (Fetch IGCommentP))
    (orc : String → List (Fetch FBReplyP))
    (h1 : okChainB pr = true) (h2 : okChainB pf = true) (h3 : okChainB pi = true) :
    get_comment_replies (pr ++ .err :: rr) = chainData pr
    ∧ fbTopLoop none (pf ++ .err :: rf) [] = (chainData pf, false)
    ∧ igTopLoop none (pi ++ .err :: ri) [] = some (chainData pi)
    ∧ get_facebook_comments (pf ++ .exn :: rf) orc none
        = (chainData pf).map (fun c => ⟨c, []⟩)
    ∧ get_comment_replies (pr ++ .exn :: rr) = []
    ∧ igTopLoop none (pi ++ .exn :: ri) [] = none := by
  refine ⟨?_, ?_, ?_, ?_, ?_, ?_⟩
  · rw [get_comment_replies, gcrGo_err pr h1 rr []]
    exact List.nil_append _
  · rw [fbTopLoop_err pf h2 rf []]
    rw [List.nil_append]
  · rw [igTopLoop_err pi h3 ri []]
    rw [List.nil_append]
  · rw [get_facebook_comments, fbTopLoop_exn pf h2 rf []]
    simp
  · rw [get_comment_replies, gcrGo_exn pr h1 rr []]
  · exact igTopLoop_exn pi h3 ri []

/-- Reply payload used in the claim C4 witness and counterexample. -/
def c4r : FBReplyP := ⟨"r0", none, 0, 0, none⟩

/-- Claim C4 witness: one successful page followed by a failure, on each
loop. -/
theorem claim_C4_witness :
    okChainB [Fetch.ok [c4r] true] = true
    ∧ get_comment_replies ([Fetch.ok [c4r] true] ++ .err :: []) = [c4r]
    ∧ get_comment_replies ([Fetch.ok [c4r] true] ++ .exn :: []) = []
    ∧ igTopLoop none (([] : List (Fetch IGCommentP)) ++ .exn :: []) [] = none := by
  have h := claim_C4_amended [Fetch.ok [c4r] true] [] [] [] [] []
    (fun _ => []) (by decide) (by decide) (by decide)
  exact ⟨by decide, h.1, h.2.2.2.2.1, h.2.2.2.2.2⟩

/-- Claim C4 counterexample: a requests exception on the second reply page
makes `get_comment_replies` return the empty list, discarding the reply
already accumulated from the first page, instead of returning it. -/
theorem claim_C4_counterexample :
    get_comment_replies [Fetch.ok [c4r] true, Fetch.exn] = []
    ∧ ([] : List FBReplyP) ≠ [c4r] := by
  refine ⟨by decide, by decide⟩

/-! ## Claim C5: the retry pass over failed links -/

/-- Rows collected by the two first passes (`ig_comments + fb_comments`). -/
def firstRowsOf (p : Pipes) (links : List String) : List Row :=
  (igPass p (links.filter fun l => hasSub "instagram" l)).1
    ++ (fbPass p (links.filter fun l => hasSub "facebook" l)).1

/-- The failed-links snapshot taken at line 216. -/
def failedOf (p : Pipes) (links : List String) : List String :=
  (igPass p (links.filter fun l => hasSub "instagram" l)).2.1
    ++ (fbPass p (links.filter fun l => hasSub "facebook" l)).2.1

lemma igPass_failed_mem (p : Pipes) : ∀ ls l, l ∈ (igPass p ls).2.1 → l ∈ ls
  | [], l => by simp [igPass]
  | x :: ls, l => by
    intro h
    simp only [igPass] at h
    cases hx : p.igFirst l with
    | rows rs =>
      cases hx2 : p.igFirst x with
      | rows rs2 =>
        rw [hx2] at h; dsimp at h
        exact List.mem_cons_of_mem x (igPass_failed_mem p ls l h)
      | failSig =>
        rw [hx2] at h; dsimp at h
        rcases List.mem_cons.mp h with h | h
        · exact h ▸ List.mem_cons_self x ls
        · exact List.mem_cons_of_mem x (igPass_failed_mem p ls l h)
    | failSig =>
      cases hx2 : p.igFirst x with
      | rows rs2 =>
        rw [hx2] at h; dsimp at h
        exact List.mem_cons_of_mem x (igPass_failed_mem p ls l h)
      | failSig =>
        rw [hx2] at h; dsimp at h
        rcases List.mem_cons.mp h with h | h
        · exact h ▸ List.mem_cons_self x ls
        · exact List.mem_cons_of_mem x (igPass_failed_mem p ls l h)

lemma fbPass_failed_mem (p : Pipes) : ∀ ls l, l ∈ (fbPass p ls).2.1 → l ∈ ls
  | [], l => by simp [fbPass]
  | x :: ls, l => by
    intro h
    simp only [fbPass] at h
    cases hx2 : p.fbFirst x with
    | rows rs2 =>
      rw [hx2] at h; dsimp at h
      exact List.mem_cons_of_mem x (fbPass_failed_mem p ls l h)
    | failSig =>
      rw [hx2] at h; dsimp at h
      rcases List.mem_cons.mp h with h | h
      · exact h ▸ List.mem_cons_self x ls
      · exact List.mem_cons_of_mem x (fbPass_failed_mem p ls l h)

lemma failedOf_sub (p : Pipes) (links : List String) :
    ∀ l ∈ failedOf p links, hasSub "instagram" l = true ∨ hasSub "facebook" l = true := by
  intro l h
  rw [failedOf] at h
  rcases List.mem_append.mp h with h | h
  · have := igPass_failed_mem p _ l h
    exact Or.inl (List.mem_filter.mp this).2
  · have := fbPass_failed_mem p _ l h
    exact Or.inr (List.mem_filter.mp this).2

lemma retry_pass_calls (p : Pipes) :
    ∀ ls, (∀ l ∈ ls, hasSub "instagram" l = true ∨ hasSub "facebook" l = true) →
    (retry_pass p ls).2 = ls.map fun l => (dispatchPlat l, l)
  | [], _ => rfl
  | x :: ls, h => by
    have hx := h x (List.mem_cons_self x ls)
    have ih := retry_pass_calls p ls fun l hl => h l (List.mem_cons_of_mem x hl)
    simp only [retry_pass, List.map_cons]
    by_cases hig : hasSub "instagram" x = true
    · rw [if_pos hig]
      have hd : dispatchPlat x = Plat.ig := by rw [dispatchPlat, if_pos hig]
      cases p.igRetry x <;> simp [ih, hd]
    · have hfb : hasSub "facebook" x = true := by
        rcases hx with hx | hx
        · exact absurd hx hig
        · exact hx
      rw [if_neg hig, if_pos hfb]
      have hd : dispatchPlat x = Plat.fb := by rw [dispatchPlat, if_neg hig]
      cases p.fbRetry x <;> simp [ih, hd]

lemma retry_pass_rows (p : Pipes) : ∀ ls, (retry_pass p ls).1 = retryGains p ls
  | [] => rfl
  | x :: ls => by
    have ih := retry_pass_rows p ls
    simp only [retry_pass, retryGains]
    by_cases hig : hasSub "instagram" x = true
    · rw [if_pos hig, if_pos hig]
      cases hr : p.igRetry x with
      | rows rs => by_cases hrs : rs = [] <;> simp [hrs, ih]
      | failSig => simp [ih]
    · rw [if_neg hig, if_neg hig]
      by_cases hfb : hasSub "facebook" x = true
      · rw [if_pos hfb, if_pos hfb]
        cases hr : p.fbRetry x with
        | rows rs => by_cases hrs : rs = [] <;> simp [hrs, ih]
        | failSig => simp [ih]
      · rw [if_neg hfb, if_neg hfb]
        simpa using ih

/-- Claim C5 (amended).  When the first pass collected at least one row,
every entry of the failed-links snapshot is retried exactly once, dispatched
by substring test with instagram checked first, rows of a successful retry
are appended in snapshot order, and an entry whose retry fails contributes
nothing without blocking the remaining retries.  When the first pass
collected no rows at all, `process_links` returns early with no output and
the recorded failed links are never retried. -/
theorem claim_C5_amended (p : Pipes) (links : List String) :
    (firstRowsOf p links ≠ [] →
      (process_links p links).retryCalls
          = (failedOf p links).map (fun l => (dispatchPlat l, l))
      ∧ (process_links p links).rows
          = some (addWeek (firstRowsOf p links ++ retryGains p (failedOf p links))))
    ∧ (firstRowsOf p links = [] →
      (process_links p links).rows = none ∧ (process_links p links).retryCalls = [])
    ∧ (process_links p links).failed = failedOf p links := by
  refine ⟨?_, ?_, ?_⟩
  · intro hne
    rw [process_links]
    rw [show (igPass p (links.filter fun l => hasSub "instagram" l)).1
          ++ (fbPass p (links.filter fun l => hasSub "facebook" l)).1
          = firstRowsOf p links from rfl]
    rw [show (igPass p (links.filter fun l => hasSub "instagram" l)).2.1
          ++ (fbPass p (links.filter fun l => hasSub "facebook" l)).2.1
          = failedOf p links from rfl]
    rw [if_neg hne]
    dsimp only
    exact ⟨retry_pass_calls p _ (failedOf_sub p links), by
      rw [retry_pass_rows p (failedOf p links)]⟩
  · intro he
    rw [process_links]
    rw [show (igPass p (links.filter fun l => hasSub "instagram" l)).1
          ++ (fbPass p (links.filter fun l => hasSub "facebook" l)).1
          = firstRowsOf p links from rfl]
    rw [if_pos he]
    exact ⟨rfl, rfl⟩
  · rw [process_links]
    rw [show (igPass p (links.filter fun l => hasSub "instagram" l)).1
          ++ (fbPass p (links.filter fun l => hasSub "facebook" l)).1
          = firstRowsOf p links from rfl]
    by_cases he : firstRowsOf p links = []
    · rw [if_pos he]; rfl
    · rw [if_neg he]; rfl

/-- Row constant used in the claim C5 witness. -/
def c5row : Row :=
  ⟨1, "", 0, none, 0, "hello", "a", "cl", "u", "facebook"⟩

/-- Pipelines used in the claim C5 witness: the Instagram link succeeds
first pass, the Facebook link fails and succeeds on retry. -/
def c5p : Pipes :=
  ⟨fun l => if l = "instagram.one" then .rows [c5row] else .failSig,
   fun _ => .failSig, fun _ => .failSig, fun _ => .rows [c5row]⟩

/-- Claim C5 witness: one collected row, one failed Facebook link retried
once through the Facebook pipeline with its rows appended. -/
theorem claim_C5_witness :
    firstRowsOf c5p ["instagram.one", "facebook.two"] ≠ []
    ∧ (process_links c5p ["instagram.one", "facebook.two"]).retryCalls
        = (failedOf c5p ["instagram.one", "facebook.two"]).map (fun l => (dispatchPlat l, l))
    ∧ (process_links c5p ["instagram.one", "facebook.two"]).rows
        = some (addWeek (firstRowsOf c5p ["instagram.one", "facebook.two"]
            ++ retryGains c5p (failedOf c5p ["instagram.one", "facebook.two"]))) := by
  have h := (claim_C5_amended c5p ["instagram.one", "facebook.two"]).1 (by decide)
  exact ⟨by decide, h.1, h.2⟩

/-- Pipelines used in the claim C5 counterexample: everything fails first
pass, retries would succeed. -/
def c5cexP : Pipes :=
  ⟨fun _ => .failSig, fun _ => .failSig, fun _ => .rows [c5row], fun _ => .rows [c5row]⟩

/-- Claim C5 counterexample: a batch whose single link fails leaves the
first pass with zero rows, so `process_links` returns early — the link is
recorded as failed but is retried zero times, not exactly once. -/
theorem claim_C5_counterexample :
    (process_links c5cexP ["instagram.com/p/x"]).failed = ["instagram.com/p/x"]
    ∧ (process_links c5cexP ["instagram.com/p/x"]).retryCalls = [] := by
  refine ⟨by decide, by decide⟩

/-! ## Claim C6: sequence identifiers and sub identifiers -/

lemma subId_ne_empty (i j : Nat) : subId i j ≠ "" := by
  intro h
  have hl := congrArg String.length h
  rw [subId, String.length_append, String.length_append] at hl
  have h1 : ("." : String).length = 1 := rfl
  have h2 : ("" : String).length = 0 := rfl
  omega

lemma filterRow_cons_pos {p : Row → Bool} {a : Row} (l : List Row) (h : p a = true) :
    (a :: l).filter p = a :: l.filter p := by
  simp [List.filter_cons, h]

lemma filterRow_cons_neg {p : Row → Bool} {a : Row} (l : List Row) (h : p a = false) :
    (a :: l).filter p = l.filter p := by
  simp [List.filter_cons, h]

lemma fbReplyRows_mem (cl u : String) (i : Nat) :
    ∀ rs j r, r ∈ fbReplyRows cl u i j rs → r.id = i ∧ r.sub_id ≠ ""
  | [], j, r => by simp [fbReplyRows]
  | x :: rs, j, r => by
    intro h
    rw [fbReplyRows] at h
    rcases List.mem_cons.mp h with h | h
    · subst h; exact ⟨rfl, subId_ne_empty i j⟩
    · exact fbReplyRows_mem cl u i rs (j + 1) r h

lemma fbReplyRows_map_sub (cl u : String) (i : Nat) :
    ∀ rs j, (fbReplyRows cl u i j rs).map (fun r => r.sub_id)
      = (List.range' j rs.length).map (subId i)
  | [], j => by simp [fbReplyRows]
  | x :: rs, j => by
    rw [fbReplyRows, List.map_cons, List.length_cons, List.range'_succ, List.map_cons]
    rw [fbReplyRows_map_sub cl u i rs (j + 1)]

lemma fbRows_mem_id_ge (cl u : String) :
    ∀ cs i r, r ∈ fbRows cl u i cs → i ≤ r.id
  | [], i, r => by simp [fbRows]
  | c :: cs, i, r => by
    intro h
    rw [fbRows] at h
    rcases List.mem_cons.mp h with h | h
    · subst h; exact Nat.le_refl i
    · rcases List.mem_append.mp h with h | h
      · by_cases hc : c.replies = []
        · rw [if_pos hc] at h; simp at h
        · rw [if_neg hc] at h
          exact (fbReplyRows_mem cl u i c.replies 1 r h).1 ▸ Nat.le_refl i
      · exact Nat.le_of_lt (Nat.lt_of_lt_of_le (Nat.lt_succ_self i)
          (fbRows_mem_id_ge cl u cs (i + 1) r h))

lemma fbRows_top_ids (cl u : String) :
    ∀ cs i, ((fbRows cl u i cs).filter fun r => decide (r.sub_id = "")).map (fun r => r.id)
      = List.range' i cs.length
  | [], i => by simp [fbRows]
  | c :: cs, i => by
    rw [fbRows, List.length_cons, List.range'_succ]
    rw [filterRow_cons_pos _ (by simp)]
    rw [List.filter_append, List.map_cons]
    have hrep : ((if c.replies = [] then [] else fbReplyRows cl u i 1 c.replies).filter
        fun r => decide (r.sub_id = "")) = [] := by
      by_cases hc : c.replies = []
      · rw [if_pos hc]; rfl
      · rw [if_neg hc]
        refine List.filter_eq_nil_iff.mpr ?_
        intro r hr
        have := (fbReplyRows_mem cl u i c.replies 1 r hr).2
        simpa using this
    rw [hrep, List.nil_append]
    rw [fbRows_top_ids cl u cs (i + 1)]

lemma fbRows_replies_at (cl u : String) :
    ∀ cs i p (hp : p < cs.length),
    ((fbRows cl u i cs).filter fun r => decide (r.id = i + p) && !decide (r.sub_id = "")).map
        (fun r => r.sub_id)
      = (List.range' 1 (cs.get ⟨p, hp⟩).replies.length).map (subId (i + p))
  | [], i, p, hp => by simp at hp
  | c :: cs, i, p, hp => by
    rw [fbRows]
    rw [filterRow_cons_neg _ (by simp)]
    rw [List.filter_append]
    cases p with
    | zero =>
      have hget : (c :: cs).get ⟨0, hp⟩ = c := rfl
      rw [hget]
      have hrec : ((fbRows cl u (i + 1) cs).filter
          fun r => decide (r.id = i + 0) && !decide (r.sub_id = "")) = [] := by
        refine List.filter_eq_nil_iff.mpr ?_
        intro r hr
        have := fbRows_mem_id_ge cl u cs (i + 1) r hr
        simp only [Bool.and_eq_true, decide_eq_true_eq]
        intro hcon
        omega
      rw [hrec, List.append_nil]
      by_cases hc : c.replies = []
      · rw [if_pos hc, hc]; rfl
      · rw [if_neg hc]
        have hall : ((fbReplyRows cl u i 1 c.replies).filter
            fun r => decide (r.id = i + 0) && !decide (r.sub_id = ""))
            = fbReplyRows cl u i 1 c.replies := by
          refine List.filter_eq_self.mpr ?_
          intro r hr
          obtain ⟨h1, h2⟩ := fbReplyRows_mem cl u i c.replies 1 r hr
          simp [h1, h2]
        rw [hall, Nat.add_zero]
        exact fbReplyRows_map_sub cl u i c.replies 1
    | succ q =>
      have hrep : ((if c.replies = [] then [] else fbReplyRows cl u i 1 c.replies).filter
          fun r => decide (r.id = i + (q + 1)) && !decide (r.sub_id = "")) = [] := by
        by_cases hc : c.replies = []
        · rw [if_pos hc]; rfl
        · rw [if_neg hc]
          refine List.filter_eq_nil_iff.mpr ?_
          intro r hr
          have := (fbReplyRows_mem cl u i c.replies 1 r hr).1
          simp only [Bool.and_eq_true, decide_eq_true_eq]
          intro hcon
          omega
      rw [hrep, List.nil_append]
      have harith : i + (q + 1) = (i + 1) + q := by omega
      have hget : (c :: cs).get ⟨q + 1, hp⟩ = cs.get ⟨q, Nat.lt_of_succ_lt_succ hp⟩ := rfl
      rw [hget, harith]
      exact fbRows_replies_at cl u cs (i + 1) q (Nat.lt_of_succ_lt_succ hp)

lemma igReplyRows_mem (i : Nat) :
    ∀ rs j r, r ∈ igReplyRows i j rs → r.id = i ∧ r.sub_id ≠ ""
  | [], j, r => by simp [igReplyRows]
  | x :: rs, j, r => by
    intro h
    rw [igReplyRows] at h
    rcases List.mem_cons.mp h with h | h
    · subst h; exact ⟨rfl, subId_ne_empty i j⟩
    · exact igReplyRows_mem i rs (j + 1) r h

lemma igReplyRows_map_sub (i : Nat) :
    ∀ rs j, (igReplyRows i j rs).map (fun r => r.sub_id)
      = (List.range' j rs.length).map (subId i)
  | [], j => by simp [igReplyRows]
  | x :: rs, j => by
    rw [igReplyRows, List.map_cons, List.length_cons, List.range'_succ, List.map_cons]
    rw [igReplyRows_map_sub i rs (j + 1)]

lemma igRows_mem_id_ge :
    ∀ cs i r, r ∈ igRows i cs → i ≤ r.id
  | [], i, r => by simp [igRows]
  | c :: cs, i, r => by
    intro h
    rw [igRows] at h
    rcases List.mem_cons.mp h with h | h
    · subst h; exact Nat.le_refl i
    · rcases List.mem_append.mp h with h | h
      · cases hc : c.2 with
        | some rs =>
          rw [hc] at h
          exact (igReplyRows_mem i rs 1 r h).1 ▸ Nat.le_refl i
        | none => rw [hc] at h; simp at h
      · exact Nat.le_of_lt (Nat.lt_of_lt_of_le (Nat.lt_succ_self i)
          (igRows_mem_id_ge cs (i + 1) r h))

/-- Effective reply list of an Instagram comment after the replies pass. -/
def igEffReplies (c : IGCommentP × Option (List IGReplyP)) : List IGReplyP :=
  match c.2 with
  | some rs => rs
  | none => []

lemma igRows_top_ids :
    ∀ cs i, ((igRows i cs).filter fun r => decide (r.sub_id = "")).map (fun r => r.id)
      = List.range' i cs.length
  | [], i => by simp [igRows]
  | c :: cs, i => by
    rw [igRows, List.length_cons, List.range'_succ]
    rw [filterRow_cons_pos _ (by simp)]
    rw [List.filter_append, List.map_cons]
    have hrep : (((match c.2 with
        | some rs => igReplyRows i 1 rs
        | none => []) : List Row).filter fun r => decide (r.sub_id = "")) = [] := by
      cases hc : c.2 with
      | some rs =>
        dsimp only
        refine List.filter_eq_nil_iff.mpr ?_
        intro r hr
        have := (igReplyRows_mem i rs 1 r hr).2
        simpa using this
      | none => rfl
    rw [hrep, List.nil_append]
    rw [igRows_top_ids cs (i + 1)]

lemma igRows_replies_at :
    ∀ cs i p (hp : p < cs.length),
    ((igRows i cs).filter fun r => decide (r.id = i + p) && !decide (r.sub_id = "")).map
        (fun r => r.sub_id)
      = (List.range' 1 (igEffReplies (cs.get ⟨p, hp⟩)).length).map (subId (i + p))
  | [], i, p, hp => by simp at hp
  | c :: cs, i, p, hp => by
    rw [igRows]
    rw [filterRow_cons_neg _ (by simp)]
    rw [List.filter_append]
    cases p with
    | zero =>
      have hget : (c :: cs).get ⟨0, hp⟩ = c := rfl
      rw [hget]
      have hrec : ((igRows (i + 1) cs).filter
          fun r => decide (r.id = i + 0) && !decide (r.sub_id = "")) = [] := by
        refine List.filter_eq_nil_iff.mpr ?_
        intro r hr
        have := igRows_mem_id_ge cs (i + 1) r hr
        simp only [Bool.and_eq_true, decide_eq_true_eq]
        intro hcon
        omega
      rw [hrec, List.append_nil]
      cases hc : c.2 with
      | some rs =>
        dsimp only
        have heff : igEffReplies c = rs := by
          simp [igEffReplies, hc]
        rw [heff]
        have hall : ((igReplyRows i 1 rs).filter
            fun r => decide (r.id = i + 0) && !decide (r.sub_id = ""))
            = igReplyRows i 1 rs := by
          refine List.filter_eq_self.mpr ?_
          intro r hr
          obtain ⟨h1, h2⟩ := igReplyRows_mem i rs 1 r hr
          simp [h1, h2]
        rw [hall, Nat.add_zero]
        exact igReplyRows_map_sub i rs 1
      | none =>
        have heff : igEffReplies c = [] := by
          simp [igEffReplies, hc]
        rw [heff]
        rfl
    | succ q =>
      have hrep : (((match c.2 with
          | some rs => igReplyRows i 1 rs
          | none => []) : List Row).filter
          fun r => decide (r.id = i + (q + 1)) && !decide (r.sub_id = "")) = [] := by
        cases hc : c.2 with
        | some rs =>
          dsimp only
          refine List.filter_eq_nil_iff.mpr ?_
          intro r hr
          have := (igReplyRows_mem i rs 1 r hr).1
          simp only [Bool.and_eq_true, decide_eq_true_eq]
          intro hcon
          omega
        | none => rfl
      rw [hrep, List.nil_append]
      have harith : i + (q + 1) = (i + 1) + q := by omega
      have hget : (c :: cs).get ⟨q + 1, hp⟩ = cs.get ⟨q, Nat.lt_of_succ_lt_succ hp⟩ := rfl
      rw [hget, harith]
      exact igRows_replies_at cs (i + 1) q (Nat.lt_of_succ_lt_succ hp)

/-- Claim C6 (confirmed).  In both normalizers the top-level rows carry the
contiguous 1-based identifiers 1..n in retrieval order with no gaps or
duplicates, each reply row carries its parent's identifier, and the sub
identifiers of the parent at 1-based position p+1 are exactly "(p+1).1",
"(p+1).2", ... contiguous and 1-based over that parent's replies. -/
theorem claim_C6 (cl u : String) (cs : List FBComment)
    (ics : List (IGCommentP × Option (List IGReplyP))) (p q : Nat)
    (hp : p < cs.length) (hq : q < ics.length) :
    ((format_comments_for_output cs cl u).filter fun r => decide (r.sub_id = "")).map
        (fun r => r.id) = List.range' 1 cs.length
    ∧ ((format_comments_for_output cs cl u).filter
          fun r => decide (r.id = 1 + p) && !decide (r.sub_id = "")).map (fun r => r.sub_id)
        = (List.range' 1 (cs.get ⟨p, hp⟩).replies.length).map (subId (1 + p))
    ∧ ((igNormalize ics).filter fun r => decide (r.sub_id = "")).map (fun r => r.id)
        = List.range' 1 ics.length
    ∧ ((igNormalize ics).filter
          fun r => decide (r.id = 1 + q) && !decide (r.sub_id = "")).map (fun r => r.sub_id)
        = (List.range' 1 (igEffReplies (ics.get ⟨q, hq⟩)).length).map (subId (1 + q)) := by
  refine ⟨?_, ?_, ?_, ?_⟩
  · exact fbRows_top_ids cl u cs 1
  · exact fbRows_replies_at cl u cs 1 p hp
  · exact igRows_top_ids ics 1
  · exact igRows_replies_at ics 1 q hq

/-- Claim C6 witness: two Facebook comments (the first with two replies) and
two Instagram comments (the first with one reply). -/
theorem claim_C6_witness :
    ((format_comments_for_output
        [⟨⟨"a", none, 0, 0, none, 2⟩, [⟨"a1", none, 0, 0, none⟩, ⟨"a2", none, 0, 0, none⟩]⟩,
         ⟨⟨"b", none, 0, 0, none, 0⟩, []⟩] "cl" "u").filter
        fun r => decide (r.sub_id = "")).map (fun r => r.id) = [1, 2]
    ∧ ((format_comments_for_output
        [⟨⟨"a", none, 0, 0, none, 2⟩, [⟨"a1", none, 0, 0, none⟩, ⟨"a2", none, 0, 0, none⟩]⟩,
         ⟨⟨"b", none, 0, 0, none, 0⟩, []⟩] "cl" "u").filter
          fun r => decide (r.id = 1 + 0) && !decide (r.sub_id = "")).map (fun r => r.sub_id)
        = ["1.1", "1.2"]
    ∧ ((igNormalize [(⟨"i", none, 0, none, 0, none⟩, some [⟨"j", none, 0, none, 0⟩]),
          (⟨"k", none, 0, none, 0, none⟩, none)]).filter
          fun r => decide (r.id = 1 + 0) && !decide (r.sub_id = "")).map (fun r => r.sub_id)
        = ["1.1"] := by
  have h := claim_C6 "cl" "u"
    [⟨⟨"a", none, 0, 0, none, 2⟩, [⟨"a1", none, 0, 0, none⟩, ⟨"a2", none, 0, 0, none⟩]⟩,
     ⟨⟨"b", none, 0, 0, none, 0⟩, []⟩]
    [(⟨"i", none, 0, none, 0, none⟩, some [⟨"j", none, 0, none, 0⟩]),
     (⟨"k", none, 0, none, 0, none⟩, none)]
    0 0 (by decide) (by decide)
  refine ⟨?_, ?_, ?_⟩
  · rw [h.1]; decide
  · rw [h.2.1]; decide
  · rw [h.2.2.2]; decide

/-! ## Claim C7: exact matching beats fuzzy matching -/

lemma igSelectLoop_exact (score : String → String → Nat) (pageName : String) :
    ∀ (pages : List IGPage) (b : Option IGPage) (s : Nat) (p0 : IGPage),
    pages.find? (fun pg => decide (lowerStr pg.name = lowerStr pageName)) = some p0 →
    (igSelectLoop score pageName pages b s).1 = some p0.id
  | [], b, s, p0 => by simp
  | p :: ps, b, s, p0 => by
    intro hfind
    rw [List.find?_cons] at hfind
    by_cases hp : lowerStr p.name = lowerStr pageName
    · have hb : decide (lowerStr p.name = lowerStr pageName) = true := by simpa using hp
      rw [hb] at hfind
      simp only [Option.some.injEq] at hfind
      subst hfind
      rw [igSelectLoop, if_pos hp]
    · have hb : decide (lowerStr p.name = lowerStr pageName) = false := by simpa using hp
      rw [hb] at hfind
      dsimp only at hfind
      rw [igSelectLoop, if_neg hp]
      by_cases hs : s < score (lowerStr pageName) (lowerStr p.name)
      · rw [if_pos hs]
        exact igSelectLoop_exact score pageName ps (some p) _ p0 hfind
      · rw [if_neg hs]
        exact igSelectLoop_exact score pageName ps b s p0 hfind

/-- Claim C7 (confirmed).  Whenever some accessible account's display name
equals the candidate case-insensitively, both resolvers return the first
such exact match, for EVERY similarity function — fuzzy scores cannot
override it (for Instagram, provided the matched page carries a truthy id,
since Python treats an empty id as falsy). -/
theorem claim_C7 (score : String → String → Nat)
    (pageDict : List (String × PageDetails)) (pageName c : String)
    (pd : String × PageDetails) (pages : List IGPage) (igName : String) (p0 : IGPage)
    (hsplit : splitAliases pageName = [c])
    (hc : exactFind pageDict c = some pd)
    (hfind : pages.find? (fun pg => decide (lowerStr pg.name = lowerStr igName)) = some p0)
    (hne : p0.id ≠ "") :
    get_page_details_by_name score pageDict pageName = some (pd.2.id, pd.2.access_token)
    ∧ igSelectPage score igName pages = some p0.id := by
  constructor
  · rw [get_page_details_by_name, hsplit, resolveNames]
    simp only [resolveNamesGo, hc]
  · have hr1 := igSelectLoop_exact score igName pages none 0 p0 hfind
    have htr : truthyS (some p0.id) = true := by simp [truthyS, hne]
    rw [igSelectPage]
    rw [hr1, htr]
    simp
    exact htr

/-- Claim C7 witness: accounts "Acme Co" and "Acme" with candidate "Acme"
resolve to "Acme" even under a similarity function that scores every pair
100. -/
theorem claim_C7_witness :
    get_page_details_by_name (fun _ _ => 100)
        [("Acme Co", ⟨"1", "t1"⟩), ("Acme", ⟨"2", "t2"⟩)] "Acme" = some ("2", "t2")
    ∧ igSelectPage (fun _ _ => 100) "Acme" [⟨"Acme Co", "10"⟩, ⟨"Acme", "20"⟩]
        = some "20" := by
  have h := claim_C7 (fun _ _ => 100) [("Acme Co", ⟨"1", "t1"⟩), ("Acme", ⟨"2", "t2"⟩)]
    "Acme" "Acme" ("Acme", ⟨"2", "t2"⟩) [⟨"Acme Co", "10"⟩, ⟨"Acme", "20"⟩] "Acme"
    ⟨"Acme", "20"⟩ (by decide) (by decide) (by decide) (by decide)
  exact h

/-! ## Claim C8: the strict fuzzy threshold of 30 -/

/-- One step of a generic best-score fold (the common shape of both
resolvers' fuzzy loops): keep the new candidate iff its score strictly
improves the running best. -/
def bestStep {α : Type} (f : α → Nat) (st : Option α × Nat) (x : α) : Option α × Nat :=
  if st.2 < f x then (some x, f x) else st

/-- Generic best-score fold. -/
def bestFold {α : Type} (f : α → Nat) (l : List α) (st : Option α × Nat) : Option α × Nat :=
  l.foldl (bestStep f) st

lemma bestFold_snd {α : Type} (f : α → Nat) : ∀ (l : List α) (st : Option α × Nat),
    (bestFold f l st).2 = l.foldl (fun m x => max m (f x)) st.2
  | [], st => rfl
  | x :: l, st => by
    simp only [bestFold, List.foldl_cons]
    rw [show List.foldl (bestStep f) (bestStep f st x) l = bestFold f l (bestStep f st x) from rfl]
    rw [bestFold_snd f l (bestStep f st x)]
    congr 1
    rw [bestStep]
    by_cases h : st.2 < f x
    · rw [if_pos h]; exact (Nat.max_eq_right (Nat.le_of_lt h)).symm
    · rw [if_neg h]; exact (Nat.max_eq_left (Nat.le_of_not_lt h)).symm

lemma bestFold_some_mono {α : Type} (f : α → Nat) : ∀ (l : List α) (st : Option α × Nat),
    st.1.isSome → (bestFold f l st).1.isSome
  | [], st => fun h => h
  | x :: l, st => by
    intro h
    rw [show bestFold f (x :: l) st = bestFold f l (bestStep f st x) from rfl]
    apply bestFold_some_mono f l
    rw [bestStep]
    by_cases hs : st.2 < f x
    · rw [if_pos hs]; rfl
    · rw [if_neg hs]; exact h

lemma bestFold_none_eq {α : Type} (f : α → Nat) : ∀ (l : List α) (st : Option α × Nat),
    (bestFold f l st).1 = none → bestFold f l st = st
  | [], st => fun _ => rfl
  | x :: l, st => by
    intro h
    rw [show bestFold f (x :: l) st = bestFold f l (bestStep f st x) from rfl] at h ⊢
    by_cases hs : st.2 < f x
    · exfalso
      have hney : (bestStep f st x).1.isSome := by rw [bestStep, if_pos hs]; rfl
      have := bestFold_some_mono f l _ hney
      rw [h] at this
      simp at this
    · have hstep : bestStep f st x = st := by rw [bestStep, if_neg hs]
      rw [hstep] at h ⊢
      exact bestFold_none_eq f l st h

lemma bestFold_lt_isSome {α : Type} (f : α → Nat) : ∀ (l : List α) (st : Option α × Nat),
    st.2 < (bestFold f l st).2 → (bestFold f l st).1.isSome
  | [], st => by intro h; exact absurd h (lt_irrefl _)
  | x :: l, st => by
    intro h
    rw [show bestFold f (x :: l) st = bestFold f l (bestStep f st x) from rfl] at h ⊢
    by_cases hs : st.2 < f x
    · apply bestFold_some_mono f l
      rw [bestStep, if_pos hs]; rfl
    · have hstep : bestStep f st x = st := by rw [bestStep, if_neg hs]
      rw [hstep] at h ⊢
      exact bestFold_lt_isSome f l st h

lemma bestFold_fst_mem {α : Type} (f : α → Nat) : ∀ (l : List α) (st : Option α × Nat) (y : α),
    (bestFold f l st).1 = some y → st.1 = some y ∨ y ∈ l
  | [], st, y => fun h => Or.inl h
  | x :: l, st, y => by
    intro h
    rw [show bestFold f (x :: l) st = bestFold f l (bestStep f st x) from rfl] at h
    rcases bestFold_fst_mem f l (bestStep f st x) y h with h2 | h2
    · rw [bestStep] at h2
      by_cases hs : st.2 < f x
      · rw [if_pos hs] at h2
        simp only [Option.some.injEq] at h2
        exact Or.inr (h2 ▸ List.mem_cons_self x l)
      · rw [if_neg hs] at h2
        exact Or.inl h2
    · exact Or.inr (List.mem_cons_of_mem x h2)

lemma fuzzScan_eq (score : String → String → Nat) (n : String)
    (pageDict : List (String × PageDetails)) (st : Option (String × PageDetails) × Nat) :
    fuzzScan score n pageDict st
      = bestFold (fun pd => score (lowerStr n) (lowerStr pd.1)) pageDict st := rfl

lemma fuzzScanAll_snd (score : String → String → Nat)
    (pageDict : List (String × PageDetails)) : ∀ (ns : List String) st,
    (fuzzScanAll score pageDict ns st).2
      = ns.foldl (fun m n => pageDict.foldl
          (fun m2 pd => max m2 (score (lowerStr n) (lowerStr pd.1))) m) st.2
  | [], st => rfl
  | n :: ns, st => by
    simp only [fuzzScanAll, List.foldl_cons]
    rw [fuzzScanAll_snd score pageDict ns (fuzzScan score n pageDict st)]
    congr 1
    rw [fuzzScan_eq, bestFold_snd]

lemma fuzzScanAll_some_mono (score : String → String → Nat)
    (pageDict : List (String × PageDetails)) : ∀ (ns : List String) st,
    st.1.isSome → (fuzzScanAll score pageDict ns st).1.isSome
  | [], st => fun h => h
  | n :: ns, st => fun h => fuzzScanAll_some_mono score pageDict ns _
    (by rw [fuzzScan_eq]; exact bestFold_some_mono _ _ _ h)

lemma fuzzScanAll_lt_isSome (score : String → String → Nat)
    (pageDict : List (String × PageDetails)) : ∀ (ns : List String) st,
    st.2 < (fuzzScanAll score pageDict ns st).2 → (fuzzScanAll score pageDict ns st).1.isSome
  | [], st => by intro h; exact absurd h (lt_irrefl _)
  | n :: ns, st => by
    intro h
    by_cases hs : (fuzzScan score n pageDict st).1.isSome
    · exact fuzzScanAll_some_mono score pageDict ns _ hs
    · have h1 : (fuzzScan score n pageDict st).1 = none :=
        Option.not_isSome_iff_eq_none.mp hs
      have h2 : fuzzScan score n pageDict st = st := by
        rw [fuzzScan_eq] at h1 ⊢
        exact bestFold_none_eq _ _ _ h1
      simp only [fuzzScanAll] at h ⊢
      rw [h2] at h ⊢
      exact fuzzScanAll_lt_isSome score pageDict ns st h

lemma igSelectLoop_noExact (score : String → String → Nat) (igName : String) :
    ∀ (pages : List IGPage) (b : Option IGPage) (s : Nat),
    (∀ p ∈ pages, lowerStr p.name ≠ lowerStr igName) →
    igSelectLoop score igName pages b s
      = (none, bestFold (fun p => score (lowerStr igName) (lowerStr p.name)) pages (b, s))
  | [], b, s, _ => rfl
  | p :: ps, b, s, h => by
    have hp := h p (List.mem_cons_self p ps)
    have hrest := fun q hq => h q (List.mem_cons_of_mem p hq)
    rw [igSelectLoop, if_neg hp]
    rw [show bestFold (fun q => score (lowerStr igName) (lowerStr q.name)) (p :: ps) (b, s)
        = bestFold (fun q => score (lowerStr igName) (lowerStr q.name)) ps
            (bestStep (fun q => score (lowerStr igName) (lowerStr q.name)) (b, s) p) from rfl]
    by_cases hs : s < score (lowerStr igName) (lowerStr p.name)
    · rw [if_pos hs]
      rw [igSelectLoop_noExact score igName ps (some p) _ hrest]
      congr 2
      rw [bestStep]
      dsimp only
      rw [if_pos hs]
    · rw [if_neg hs]
      rw [igSelectLoop_noExact score igName ps b s hrest]
      congr 2
      rw [bestStep]
      dsimp only
      rw [if_neg hs]

/-- Claim C8 (confirmed).  With no case-insensitive exact match anywhere,
both resolvers return NotFound whenever the maximal fuzzy score over the
accessible accounts is at most 30, and accept a best fuzzy match only when
the maximal score strictly exceeds 30 (for Instagram, provided the
accessible pages carry truthy ids). -/
theorem claim_C8 (score : String → String → Nat)
    (pageDict : List (String × PageDetails)) (pageName : String)
    (pages : List IGPage) (igName : String)
    (hno : ∀ n ∈ splitAliases pageName, exactFind pageDict n = none)
    (hnoIG : ∀ p ∈ pages, lowerStr p.name ≠ lowerStr igName)
    (hIds : ∀ p ∈ pages, p.id ≠ "") :
    (maxFuzz score pageDict (splitAliases pageName) ≤ 30 →
        get_page_details_by_name score pageDict pageName = none)
    ∧ (30 < maxFuzz score pageDict (splitAliases pageName) →
        (get_page_details_by_name score pageDict pageName).isSome)
    ∧ (igMaxFuzz score igName pages ≤ 30 → igSelectPage score igName pages = none)
    ∧ (30 < igMaxFuzz score igName pages → (igSelectPage score igName pages).isSome) := by
  have hres := resolveNamesGo_noExact score pageDict (splitAliases pageName) hno (none, 0)
  have hmax : (fuzzScanAll score pageDict (splitAliases pageName) (none, 0)).2
      = maxFuzz score pageDict (splitAliases pageName) := by
    rw [fuzzScanAll_snd]
    rfl
  have hloop := igSelectLoop_noExact score igName pages none 0 hnoIG
  have higmax : (bestFold (fun p => score (lowerStr igName) (lowerStr p.name)) pages
      ((none : Option IGPage), 0)).2 = igMaxFuzz score igName pages := by
    rw [bestFold_snd]
    rfl
  refine ⟨?_, ?_, ?_, ?_⟩
  · intro h30
    rw [get_page_details_by_name, resolveNames, hres]
    rcases hst : fuzzScanAll score pageDict (splitAliases pageName) (none, 0) with ⟨b, s⟩
    rw [hst] at hmax
    cases b with
    | none => rfl
    | some pd =>
      simp only [finishFuzzy]
      rw [if_neg (by omega)]
  · intro h30
    rw [get_page_details_by_name, resolveNames, hres]
    have hlt : ((none : Option (String × PageDetails)), 0).2
        < (fuzzScanAll score pageDict (splitAliases pageName) (none, 0)).2 := by
      rw [hmax]; omega
    have hsome := fuzzScanAll_lt_isSome score pageDict (splitAliases pageName) (none, 0) hlt
    rcases hst : fuzzScanAll score pageDict (splitAliases pageName) (none, 0) with ⟨b, s⟩
    rw [hst] at hmax hsome
    cases b with
    | none => simp at hsome
    | some pd =>
      simp only [finishFuzzy]
      rw [if_pos (by omega)]
      rfl
  · intro h30
    rw [igSelectPage, hloop]
    rcases hst : bestFold (fun p => score (lowerStr igName) (lowerStr p.name)) pages
        ((none : Option IGPage), 0) with ⟨b, s⟩
    rw [hst] at higmax
    rw [hst]
    have hs30 : ¬ 30 < s := by omega
    simp [truthyS, hs30]
  · intro h30
    rw [igSelectPage, hloop]
    have hlt : ((none : Option IGPage), 0).2
        < (bestFold (fun p => score (lowerStr igName) (lowerStr p.name)) pages
            ((none : Option IGPage), 0)).2 := by
      rw [higmax]; omega
    have hsome := bestFold_lt_isSome _ pages ((none : Option IGPage), 0) hlt
    have hmem := bestFold_fst_mem (fun p => score (lowerStr igName) (lowerStr p.name))
      pages ((none : Option IGPage), 0)
    rcases hst : bestFold (fun p => score (lowerStr igName) (lowerStr p.name)) pages
        ((none : Option IGPage), 0) with ⟨b, s⟩
    rw [hst] at higmax hsome hmem
    cases b with
    | none => simp at hsome
    | some p =>
      have hp : p ∈ pages := by
        rcases hmem p rfl with h2 | h2
        · simp at h2
        · exact h2
      have hpid := hIds p hp
      have hs30 : 30 < s := by omega
      rw [hst]
      simp [truthyS, hs30, hpid]

/-- Claim C8 witness: candidate "Zzqx" against the single account "Acme"
under a similarity function that always scores 25 — below the threshold —
yields NotFound on both platforms. -/
theorem claim_C8_witness :
    maxFuzz (fun _ _ => 25) [("Acme", ⟨"1", "t"⟩)] (splitAliases "Zzqx") ≤ 30
    ∧ get_page_details_by_name (fun _ _ => 25) [("Acme", ⟨"1", "t"⟩)] "Zzqx" = none
    ∧ igSelectPage (fun _ _ => 25) "Zzqx" [⟨"Acme", "10"⟩] = none := by
  have h := claim_C8 (fun _ _ => 25) [("Acme", ⟨"1", "t"⟩)] "Zzqx" [⟨"Acme", "10"⟩] "Zzqx"
    (by decide) (by decide) (by decide)
  exact ⟨by decide, h.1 (by decide), h.2.2.1 (by decide)⟩

/-! ## Claim C9: the Monday-aligned week column -/

lemma addWeek_week : ∀ (xs : List Row) r, r ∈ addWeek xs → r.week = some (mondayOf r.date) := by
  intro xs r h
  rw [addWeek] at h
  rcases List.mem_map.mp h with ⟨x, _, hx⟩
  subst hx
  rfl

lemma process_links_rows_week (p : Pipes) (links : List String) (rws : List Row)
    (h : (process_links p links).rows = some rws) :
    ∀ r ∈ rws, r.week = some (mondayOf r.date) := by
  rw [process_links] at h
  dsimp only at h
  split at h
  · simp at h
  · simp only [Option.some.injEq] at h
    subst h
    exact addWeek_week _

lemma fbReplyRows_week (cl u : String) (i : Nat) :
    ∀ rs j r, r ∈ fbReplyRows cl u i j rs → r.week = none
  | [], j, r => by simp [fbReplyRows]
  | x :: rs, j, r => by
    intro h
    rw [fbReplyRows] at h
    rcases List.mem_cons.mp h with h | h
    · subst h; rfl
    · exact fbReplyRows_week cl u i rs (j + 1) r h

lemma fbRows_week (cl u : String) :
    ∀ cs i r, r ∈ fbRows cl u i cs → r.week = none
  | [], i, r => by simp [fbRows]
  | c :: cs, i, r => by
    intro h
    rw [fbRows] at h
    rcases List.mem_cons.mp h with h | h
    · subst h; rfl
    · rcases List.mem_append.mp h with h | h
      · by_cases hc : c.replies = []
        · rw [if_pos hc] at h; simp at h
        · rw [if_neg hc] at h
          exact fbReplyRows_week cl u i c.replies 1 r h
      · exact fbRows_week cl u cs (i + 1) r h

lemma igReplyRows_week (i : Nat) :
    ∀ rs j r, r ∈ igReplyRows i j rs → r.week = none
  | [], j, r => by simp [igReplyRows]
  | x :: rs, j, r => by
    intro h
    rw [igReplyRows] at h
    rcases List.mem_cons.mp h with h | h
    · subst h; rfl
    · exact igReplyRows_week i rs (j + 1) r h

lemma igRows_week :
    ∀ cs i r, r ∈ igRows i cs → r.week = none
  | [], i, r => by simp [igRows]
  | c :: cs, i, r => by
    intro h
    rw [igRows] at h
    rcases List.mem_cons.mp h with h | h
    · subst h; rfl
    · rcases List.mem_append.mp h with h | h
      · cases hc : c.2 with
        | some rs => rw [hc] at h; exact igReplyRows_week i rs 1 r h
        | none => rw [hc] at h; simp at h
      · exact igRows_week cs (i + 1) r h

/-- Claim C9 (confirmed).  Every row of the merged output carries
`week = mondayOf date`, where `mondayOf d` is the unique Monday on or
before `d` (weekday 0, at most `d`, less than a week away, and at least any
other Monday not after `d`); the normalizers themselves leave the week
column empty, it is filled in only by the batch post-processing step. -/
theorem claim_C9 (p : Pipes) (links : List String) (rws : List Row) (r : Row)
    (cs : List FBComment) (cl u : String) (r2 : Row)
    (ics : List (IGCommentP × Option (List IGReplyP))) (r3 : Row) (d m : Int)
    (h1 : (process_links p links).rows = some rws) (h2 : r ∈ rws)
    (h3 : r2 ∈ format_comments_for_output cs cl u) (h4 : r3 ∈ igNormalize ics) :
    r.week = some (mondayOf r.date)
    ∧ r2.week = none
    ∧ r3.week = none
    ∧ weekday (mondayOf d) = 0
    ∧ mondayOf d ≤ d
    ∧ d - mondayOf d < 7
    ∧ (weekday m = 0 → m ≤ d → m ≤ mondayOf d) := by
  refine ⟨process_links_rows_week p links rws h1 r h2, ?_, ?_, ?_, ?_, ?_, ?_⟩
  · exact fbRows_week cl u cs 1 r2 h3
  · exact igRows_week ics 1 r3 h4
  · simp only [weekday, mondayOf]; omega
  · simp only [weekday, mondayOf]; omega
  · simp only [weekday, mondayOf]; omega
  · simp only [weekday, mondayOf]; omega

/-- Row constant used in the claim C9 witness: its date is day 19796,
which is 2024-03-14, a Thursday. -/
def c9row : Row := ⟨1, "", 19796, none, 0, "", "", "", "", "instagram"⟩

/-- Pipelines used in the claim C9 witness. -/
def c9p : Pipes :=
  ⟨fun _ => .rows [c9row], fun _ => .failSig, fun _ => .failSig, fun _ => .failSig⟩

/-- Claim C9 witness: day 19796 (2024-03-14, a Thursday) gets week
19793 (2024-03-11, the Monday on or before it) in the merged output. -/
theorem claim_C9_witness :
    weekday 19796 = 3
    ∧ mondayOf 19796 = 19793
    ∧ ({ c9row with week := some 19793 } : Row).week
        = some (mondayOf ({ c9row with week := some 19793 } : Row).date)
    ∧ weekday (mondayOf 19796) = 0 := by
  have h := claim_C9 c9p ["instagram"] (addWeek [c9row]) { c9row with week := some 19793 }
    [⟨⟨"c", none, 5, 0, none, 0⟩, []⟩] "cl" "u"
    ⟨1, "", 5, none, 0, "", "Unknown", "cl", "u", "facebook"⟩
    [(⟨"i", none, 0, none, 0, none⟩, none)]
    ⟨1, "", 0, none, 0, "", "", "", "", "instagram"⟩ 19796 19793
    (by decide) (by decide) (by decide) (by decide)
  exact ⟨by decide, by decide, h.1, h.2.2.2.1⟩

/-! ## Claim C10: routing purely by substring test -/

lemma igPass_calls (p : Pipes) : ∀ ls, (igPass p ls).2.2 = ls.map fun s => (Plat.ig, s)
  | [] => rfl
  | x :: ls => by
    simp only [igPass, List.map_cons]
    cases hx : p.igFirst x <;> dsimp only <;> rw [igPass_calls p ls]

lemma fbPass_calls (p : Pipes) : ∀ ls, (fbPass p ls).2.2 = ls.map fun s => (Plat.fb, s)
  | [] => rfl
  | x :: ls => by
    simp only [fbPass, List.map_cons]
    cases hx : p.fbFirst x <;> dsimp only <;> rw [fbPass_calls p ls]

lemma process_links_firstCalls (p : Pipes) (links : List String) :
    (process_links p links).firstCalls
      = (links.filter fun s => hasSub "instagram" s).map (fun s => (Plat.ig, s))
        ++ (links.filter fun s => hasSub "facebook" s).map (fun s => (Plat.fb, s)) := by
  rw [process_links]
  dsimp only
  split
  · rw [igPass_calls, fbPass_calls]
  · rw [igPass_calls, fbPass_calls]

lemma process_links_failed_eq (p : Pipes) (links : List String) :
    (process_links p links).failed = failedOf p links := by
  rw [process_links, failedOf]
  dsimp only
  split
  · rfl
  · rfl

lemma retry_pass_call_names (p : Pipes) :
    ∀ ls pr, pr ∈ (retry_pass p ls).2 → pr.2 ∈ ls
  | [], pr => by simp [retry_pass]
  | x :: ls, pr => by
    intro h
    simp only [retry_pass] at h
    by_cases hig : hasSub "instagram" x = true
    · rw [if_pos hig] at h
      cases hx : p.igRetry x with
      | rows rs =>
        rw [hx] at h; dsimp only at h
        rcases List.mem_cons.mp h with h | h
        · subst h; exact List.mem_cons_self x ls
        · exact List.mem_cons_of_mem x (retry_pass_call_names p ls pr h)
      | failSig =>
        rw [hx] at h; dsimp only at h
        rcases List.mem_cons.mp h with h | h
        · subst h; exact List.mem_cons_self x ls
        · exact List.mem_cons_of_mem x (retry_pass_call_names p ls pr h)
    · rw [if_neg hig] at h
      by_cases hfb : hasSub "facebook" x = true
      · rw [if_pos hfb] at h
        cases hx : p.fbRetry x with
        | rows rs =>
          rw [hx] at h; dsimp only at h
          rcases List.mem_cons.mp h with h | h
          · subst h; exact List.mem_cons_self x ls
          · exact List.mem_cons_of_mem x (retry_pass_call_names p ls pr h)
        | failSig =>
          rw [hx] at h; dsimp only at h
          rcases List.mem_cons.mp h with h | h
          · subst h; exact List.mem_cons_self x ls
          · exact List.mem_cons_of_mem x (retry_pass_call_names p ls pr h)
      · rw [if_neg hfb] at h
        exact List.mem_cons_of_mem x (retry_pass_call_names p ls pr h)

lemma process_links_retry_names (p : Pipes) (links : List String) :
    ∀ pr ∈ (process_links p links).retryCalls, pr.2 ∈ failedOf p links := by
  intro pr h
  rw [process_links] at h
  dsimp only at h
  split at h
  · simp at h
  · exact retry_pass_call_names p _ pr h

/-- Claim C10 (confirmed).  Routing is purely the case-insensitive substring
test: a link containing neither "facebook" nor "instagram" is silently
dropped — removing it from the batch changes nothing, it is never invoked on
either pipeline in either pass and never recorded as failed — while a link
containing both substrings is processed by both platform pipelines. -/
theorem claim_C10 (p : Pipes) (xs ys links : List String) (l m : String)
    (h1 : hasSub "facebook" l = false) (h2 : hasSub "instagram" l = false)
    (h3 : m ∈ links) (h4 : hasSub "facebook" m = true)
    (h5 : hasSub "instagram" m = true) :
    process_links p (xs ++ l :: ys) = process_links p (xs ++ ys)
    ∧ l ∉ (process_links p links).firstCalls.map (fun c => c.2)
    ∧ l ∉ (process_links p links).failed
    ∧ l ∉ (process_links p links).retryCalls.map (fun c => c.2)
    ∧ (Plat.ig, m) ∈ (process_links p links).firstCalls
    ∧ (Plat.fb, m) ∈ (process_links p links).firstCalls := by
  have hfi : (xs ++ l :: ys).filter (fun s => hasSub "instagram" s)
      = (xs ++ ys).filter (fun s => hasSub "instagram" s) := by
    simp [List.filter_append, List.filter_cons, h2]
  have hfb : (xs ++ l :: ys).filter (fun s => hasSub "facebook" s)
      = (xs ++ ys).filter (fun s => hasSub "facebook" s) := by
    simp [List.filter_append, List.filter_cons, h1]
  refine ⟨?_, ?_, ?_, ?_, ?_, ?_⟩
  · rw [process_links, process_links, hfi, hfb]
  · intro hmem
    rw [process_links_firstCalls] at hmem
    rcases List.mem_map.mp hmem with ⟨pr, hpr, hpr2⟩
    rcases List.mem_append.mp hpr with hpr | hpr
    · rcases List.mem_map.mp hpr with ⟨s, hs, hseq⟩
      have : hasSub "instagram" l = true := by
        have := (List.mem_filter.mp hs).2
        rw [← hpr2, ← hseq]
        exact this
      rw [this] at h2; simp at h2
    · rcases List.mem_map.mp hpr with ⟨s, hs, hseq⟩
      have : hasSub "facebook" l = true := by
        have := (List.mem_filter.mp hs).2
        rw [← hpr2, ← hseq]
        exact this
      rw [this] at h1; simp at h1
  · intro hmem
    rw [process_links_failed_eq] at hmem
    rcases failedOf_sub p links l hmem with hc | hc
    · rw [hc] at h2; simp at h2
    · rw [hc] at h1; simp at h1
  · intro hmem
    rcases List.mem_map.mp hmem with ⟨pr, hpr, hpr2⟩
    have := process_links_retry_names p links pr hpr
    rw [hpr2] at this
    rcases failedOf_sub p links l this with hc | hc
    · rw [hc] at h2; simp at h2
    · rw [hc] at h1; simp at h1
  · rw [process_links_firstCalls]
    refine List.mem_append.mpr (Or.inl ?_)
    exact List.mem_map.mpr ⟨m, List.mem_filter.mpr ⟨h3, h5⟩, rfl⟩
  · rw [process_links_firstCalls]
    refine List.mem_append.mpr (Or.inr ?_)
    exact List.mem_map.mpr ⟨m, List.mem_filter.mpr ⟨h3, h4⟩, rfl⟩

/-- Pipelines used in the claim C10 witness. -/
def c10p : Pipes :=
  ⟨fun _ => .rows [c5row], fun _ => .rows [c5row], fun _ => .failSig, fun _ => .failSig⟩

/-- Claim C10 witness: the link "nothing.example" is silently dropped and
the link "bothfacebookinstagram" is dispatched to both pipelines. -/
theorem claim_C10_witness :
    process_links c10p ([] ++ "nothing.example" :: ["bothfacebookinstagram"])
      = process_links c10p ([] ++ ["bothfacebookinstagram"])
    ∧ "nothing.example" ∉ (process_links c10p ["bothfacebookinstagram"]).failed
    ∧ (Plat.ig, "bothfacebookinstagram")
        ∈ (process_links c10p ["bothfacebookinstagram"]).firstCalls
    ∧ (Plat.fb, "bothfacebookinstagram")
        ∈ (process_links c10p ["bothfacebookinstagram"]).firstCalls := by
  have h := claim_C10 c10p [] ["bothfacebookinstagram"] ["bothfacebookinstagram"]
    "nothing.example" "bothfacebookinstagram"
    (by decide) (by decide) (by decide) (by decide) (by decide)
  exact ⟨h.1, h.2.2.1, h.2.2.2.2.1, h.2.2.2.2.2⟩
